import Mathlib

/-!
Shallow embedding of `redis/sansio/_parser.py` (class `PythonParser`), an
incremental RESP2/RESP3 reply parser driven by a generator chain.  The
generator chain is defunctionalized into an explicit small-step machine:

* `Core` holds the mutable fields `buf`, `pos`, `_err` and the active
  dispatch table (`dec = true` means `_PROTOCOLS_DECODE` is installed).
* `Act` records exactly where the suspended generator stands: about to run
  `parse()` (`startParse`), suspended in `readone`'s `waitany` (`waitCtl`),
  scanning or suspended in `readline()` without a size (`lineFind` /
  `lineWait`), or suspended in `readline(size)`'s `waitsome` (`exactRead`).
  The wait thresholds stored in `waitCtl`/`lineWait` are the values the
  Python code fixes when it calls `waitsome(len(self.buf) + 1)`.
* `K` is the stack of in-progress aggregate parsers (`_parse_mutibulk`,
  `_parse_dict`), each holding its loop counter and partial collection.
* `step` performs one cursor-advancing action of the generator chain;
  `runSteps` iterates it, exactly as `Generator.send(None)` runs the chain
  until the next yield, `StopIteration`, or exception.

Text decoding (`_maybe_decode`, `bytes.decode`) is modeled as tagging the
byte sequence with the `str` constructor: no claim observes the codec, only
whether the decoded or the raw variant of a frame parser ran.  Python float
values are carried as their wire token for the same reason.  `encoding_errors`
is carried nowhere because no observable behavior in scope depends on it.
-/

namespace Resp

/-- A byte string: a list of byte values, as held by the Python `bytearray`. -/
abbrev Bytes := List Nat

/-- The CRLF line terminator `b"\x0d\x0a"`. -/
def crlf : Bytes := [13, 10]

/-- Python `buf.find(b"\r\n")` restricted to a suffix: index of the first
occurrence of the two-byte pattern CRLF, if any. -/
def findCRLF : Bytes → Option Nat
  | [] => none
  | b :: rest =>
    match rest with
    | [] => none
    | b2 :: _ => if b = 13 ∧ b2 = 10 then some 0 else (findCRLF rest).map (· + 1)

/-- Python `self.buf.find(b"\r\n", i)`: absolute index of the first CRLF at
or after position `i`, `none` standing for the return value `-1`. -/
def findFrom (l : Bytes) (i : Nat) : Option Nat :=
  (findCRLF (l.drop i)).map (· + i)

/-- Normalize one Python slice bound for a sequence of length `len`:
negative indices count from the end and everything is clamped to
`[0, len]`. -/
def sliceIdx (len : Nat) (i : Int) : Nat :=
  if i < 0 then ((len : Int) + i).toNat else min i.toNat len

/-- Python `l[i:j]` with step 1, including the negative-index rules, as used
by `readline(size)` on the `bytearray`. -/
def pySlice (l : Bytes) (i j : Int) : Bytes :=
  (l.take (sliceIdx l.length j)).drop (sliceIdx l.length i)

/-- Python `del l[:j]` — drop the (normalized) prefix. -/
def pyDelFront (l : Bytes) (j : Int) : Bytes :=
  l.drop (sliceIdx l.length j)

/-- The ASCII whitespace bytes `int()`/`float()` strip from a `bytes`
argument: space, tab, LF, CR, VT, FF. -/
def isPySpace (b : Nat) : Bool :=
  b = 32 || b = 9 || b = 10 || b = 13 || b = 11 || b = 12

/-- ASCII decimal digit test. -/
def isDigit (b : Nat) : Bool := 48 ≤ b && b ≤ 57

/-- Strip leading and trailing Python whitespace, as `int(b"...")` and
`float(b"...")` do before parsing the token. -/
def stripWS (l : Bytes) : Bytes :=
  ((l.dropWhile isPySpace).reverse.dropWhile isPySpace).reverse

/-- Continue a digit group after its first digit: Python number syntax
allows single underscores strictly between digits (`1_0`), rejecting
leading, trailing, or doubled underscores.  `acc` is the value read so
far. -/
def usTail (acc : Nat) : Bytes → Option Nat
  | [] => some acc
  | b :: rest =>
    if isDigit b then usTail (acc * 10 + (b - 48)) rest
    else if b = 95 then
      match rest with
      | [] => none
      | b2 :: rest2 => if isDigit b2 then usTail (acc * 10 + (b2 - 48)) rest2 else none
    else none

/-- A nonempty underscore-grouped digit string and its value. -/
def usNat : Bytes → Option Nat
  | [] => none
  | b :: rest => if isDigit b then usTail (b - 48) rest else none

/-- Python `int(bytes)` in base 10: strip ASCII whitespace, optional single
sign, then underscore-grouped digits; arbitrary precision, `none` for
`ValueError`. -/
def pyInt (l : Bytes) : Option Int :=
  match stripWS l with
  | [] => none
  | b :: rest =>
    if b = 43 then (usNat rest).map (fun n => (n : Int))
    else if b = 45 then (usNat rest).map (fun n => -(n : Int))
    else (usNat (b :: rest)).map (fun n => (n : Int))

/-- Lowercase an ASCII byte, for the case-insensitive `inf`/`nan` forms. -/
def toLowerB (b : Nat) : Nat := if 65 ≤ b ∧ b ≤ 90 then b + 32 else b

/-- Split a byte string at the first occurrence of byte `x`: the part
before it, and (when present) the part after it. -/
def splitAtByte (x : Nat) : Bytes → Bytes × Option Bytes
  | [] => ([], none)
  | b :: rest =>
    if b = x then ([], some rest)
    else
      match splitAtByte x rest with
      | (p, o) => (b :: p, o)

/-- Whether a byte string is a valid underscore-grouped digit string. -/
def usOk (l : Bytes) : Bool := (usNat l).isSome

/-- Validity of a float mantissa: digits with an optional point, at least
one digit overall, underscore rules as for `int`. -/
def mantOk (m : Bytes) : Bool :=
  match splitAtByte 46 m with
  | (i, none) => usOk i
  | (i, some f) =>
    (i == [] && usOk f) || (usOk i && f == []) || (usOk i && usOk f)

/-- Validity of a float exponent: optional sign then digits. -/
def expOk (e : Bytes) : Bool :=
  match e with
  | [] => false
  | b :: rest => if b = 43 ∨ b = 45 then usOk rest else usOk e

/-- Validity of a decimal float form `mantissa [e exponent]`. -/
def decForm (t : Bytes) : Bool :=
  match splitAtByte 101 t with
  | (m, none) => mantOk m
  | (m, some ex) => mantOk m && expOk ex

/-- Acceptance of Python `float(bytes)`: strip whitespace, optional sign,
then `inf`, `infinity`, `nan` (case-insensitive) or a decimal form. -/
def pyFloatValid (l : Bytes) : Bool :=
  let t := (stripWS l).map toLowerB
  let body :=
    match t with
    | [] => ([] : Bytes)
    | b :: rest => if b = 43 || b = 45 then rest else t
  body == [105, 110, 102] || body == [105, 110, 102, 105, 110, 105, 116, 121] ||
    body == [110, 97, 110] || decForm body

/-- Split on the first `b":"` as `vbt.split(b":", maxsplit=1)` in
`_parse_verbatim` does: `none` when no colon occurs (one-element list,
whose tuple unpacking raises `ValueError`). -/
def splitColon : Bytes → Option (Bytes × Bytes)
  | [] => none
  | b :: rest =>
    if b = 58 then some ([], rest)
    else (splitColon rest).map (fun pr => (b :: pr.1, pr.2))

/-- Parsed reply values.  `str` marks bytes that went through
`_maybe_decode`/`.decode` (the decoded variants); `float` carries the wire
token; aggregates hold their children. -/
inductive RVal where
  | bytes (b : Bytes)
  | str (b : Bytes)
  | int (n : Int)
  | float (tok : Bytes)
  | bool (b : Bool)
  | null
  | arr (l : List RVal)
  | map (l : List (RVal × RVal))
  | set (l : List RVal)
  | replyErr (msg : Bytes)

mutual

/-- Structural equality on reply values, standing in for Python `==` on the
values the parser builds. -/
def RVal.beq : RVal → RVal → Bool
  | .bytes a, .bytes b => a == b
  | .str a, .str b => a == b
  | .int a, .int b => a == b
  | .float a, .float b => a == b
  | .bool a, .bool b => a == b
  | .null, .null => true
  | .arr a, .arr b => RVal.beqList a b
  | .map a, .map b => RVal.beqPairs a b
  | .set a, .set b => RVal.beqList a b
  | .replyErr a, .replyErr b => a == b
  | _, _ => false

/-- Elementwise equality of value lists. -/
def RVal.beqList : List RVal → List RVal → Bool
  | [], [] => true
  | a :: as, b :: bs => RVal.beq a b && RVal.beqList as bs
  | _, _ => false

/-- Elementwise equality of key/value pair lists. -/
def RVal.beqPairs : List (RVal × RVal) → List (RVal × RVal) → Bool
  | [], [] => true
  | (k1, v1) :: as, (k2, v2) :: bs =>
    RVal.beq k1 k2 && RVal.beq v1 v2 && RVal.beqPairs as bs
  | _, _ => false

end

/-- Messages of the protocol errors built via `self.error(...)`, i.e. the
values `protocolError(msg)`; the payload identifies the message the Python
code passes. -/
inductive PMsg where
  | expectedCRLF
  | badInt (tok : Bytes)
  | badFloat (tok : Bytes)
  | unknownTag (b : Option Nat)
deriving DecidableEq

/-- Exceptions the parser can raise that are not produced by
`protocolError`: the `ValueError` from unpacking a colon-free verbatim
payload, and the `TypeError` from `yield from self.parse` (uncalled bound
method) in `_parse_set`. -/
inductive NErr where
  | verbatimUnpack
  | setIter
deriving DecidableEq

/-- An exception escaping `parse_one`: either a protocol-error value
produced by the `protocolError` factory, or a native Python exception. -/
inductive Exc where
  | proto (m : PMsg)
  | native (e : NErr)
deriving DecidableEq

/-- Consumer of a parsed integer line (`readint` call sites). -/
inductive IntDst where
  | intVal
  | bulk (dec : Bool)
  | verbatim (dec : Bool)
  | arrLen
  | mapLen
  | setLen
deriving DecidableEq

/-- Consumer of a line read by `readline()` without a size. -/
inductive LineDst where
  | errLine
  | single (dec : Bool)
  | intFor (t : IntDst)
  | floatVal
  | boolVal
  | nullLine
deriving DecidableEq

/-- Consumer of the exact-length payload read by `readline(size)`. -/
inductive ExactDst where
  | bulkBody (dec : Bool)
  | verbatimBody (dec : Bool)
deriving DecidableEq

/-- The stack of suspended aggregate parsers: each frame holds the loop
counter (children or pairs still to parse, current one included) and the
partial collection, mirroring the local state of `_parse_mutibulk` and
`_parse_dict` generators. -/
inductive K where
  | top
  | arrK (remaining : Nat) (acc : List RVal) (k : K)
  | mapKeyK (remaining : Nat) (acc : List (RVal × RVal)) (k : K)
  | mapValK (remaining : Nat) (acc : List (RVal × RVal)) (key : RVal) (k : K)

/-- The position of the innermost suspended reader.  Wait thresholds are
the absolute buffer lengths the enclosing `waitsome` loop demands, exactly
as the Python code fixes them (`waitany` passes `len(self.buf) + 1` and
`waitsome(size)` loops while `len(self.buf) < self.pos + size`). -/
inductive Act where
  | startParse
  | waitCtl (threshold : Nat)
  | lineFind (dst : LineDst)
  | lineWait (threshold : Nat) (dst : LineDst)
  | exactRead (size : Int) (dst : ExactDst)

/-- The mutable scalar state of the parser: `buf`, `pos`, the sticky
`_err` slot, and which dispatch table `_protocols` currently points at
(`dec = true` for `_PROTOCOLS_DECODE`). -/
structure Core where
  buf : Bytes
  pos : Nat
  err : Option PMsg
  dec : Bool
deriving DecidableEq

/-- Python `dict` assignment `val[key] = v`: overwrite in place on an
existing (structurally equal) key, else append.  Python's cross-type
equalities (`1 == True`) are not modeled; no observable behavior in scope
builds a map with such key collisions. -/
def pyDictInsert (l : List (RVal × RVal)) (kv v : RVal) : List (RVal × RVal) :=
  if l.any (fun p => RVal.beq p.1 kv) then
    l.map (fun p => if RVal.beq p.1 kv then (p.1, v) else p)
  else l ++ [(kv, v)]

/-- Result of handing a completed child value to the aggregate stack:
either the next child parse starts, or a top-level value is complete. -/
inductive Deliv where
  | go (a : Act) (k : K)
  | out (v : RVal)

/-- Hand a completed value to the innermost aggregate frame, popping
finished frames: the return paths of `_parse_mutibulk` / `_parse_dict`
loops. -/
def deliver (v : RVal) : K → Deliv
  | .top => .out v
  | .arrK r acc k =>
    if r ≤ 1 then deliver (.arr (acc ++ [v])) k
    else .go .startParse (.arrK (r - 1) (acc ++ [v]) k)
  | .mapKeyK r acc k => .go .startParse (.mapValK r acc v k)
  | .mapValK r acc key k =>
    if r ≤ 1 then deliver (.map (pyDictInsert acc key v)) k
    else .go .startParse (.mapKeyK (r - 1) (pyDictInsert acc key v) k)

/-- One observable outcome of advancing the generator chain: keep running,
suspend (a `yield` reached `parse_one`), finish with a value
(`StopIteration`), or raise. -/
inductive StepOut where
  | cont (c : Core) (a : Act) (k : K)
  | yield (c : Core) (a : Act) (k : K)
  | ret (c : Core) (v : RVal)
  | raise (c : Core) (e : Exc)

/-- The core state an outcome carries. -/
def StepOut.core : StepOut → Core
  | .cont c _ _ => c
  | .yield c _ _ => c
  | .ret c _ => c
  | .raise c _ => c

/-- The activity an outcome carries, when it keeps one. -/
def StepOut.act : StepOut → Option Act
  | .cont _ a _ => some a
  | .yield _ a _ => some a
  | .ret _ _ => none
  | .raise _ _ => none

/-- Wrap `deliver` back into a step outcome. -/
def fromDeliv (c : Core) (k : K) (v : RVal) : StepOut :=
  match deliver v k with
  | .out v => .ret c v
  | .go a k' => .cont c a k'

/-- The placeholder message `b"Error"` used by `_parse_error` for an empty
line (`val or b"Error"`). -/
def errorMsgBytes : Bytes := [69, 114, 114, 111, 114]

/-- Dispatch a just-completed `readint` to its caller.  Mirrors
`_parse_int`, `_parse_bulk[_decode]`, `_parse_verbatim[_decode]`,
`_parse_mutibulk`/`_parse_vector`, `_parse_dict`, `_parse_set` after their
`readint`.  A non-positive count makes `range(length)` empty; in
`_parse_set` with a positive count the loop body evaluates
`yield from self.parse` — a bound method, not called — raising `TypeError`
before any child is parsed. -/
def handleInt (c : Core) (n : Int) (t : IntDst) (k : K) : StepOut :=
  match t with
  | .intVal => fromDeliv c k (.int n)
  | .bulk dec =>
    if n = -1 then fromDeliv c k .null
    else .cont c (.exactRead n (.bulkBody dec)) k
  | .verbatim dec =>
    if n = -1 then fromDeliv c k .null
    else .cont c (.exactRead n (.verbatimBody dec)) k
  | .arrLen =>
    if n = -1 then fromDeliv c k .null
    else if n ≤ 0 then fromDeliv c k (.arr [])
    else .cont c .startParse (.arrK n.toNat [] k)
  | .mapLen =>
    if n = -1 then fromDeliv c k .null
    else if n ≤ 0 then fromDeliv c k (.map [])
    else .cont c .startParse (.mapKeyK n.toNat [] k)
  | .setLen =>
    if n = -1 then fromDeliv c k .null
    else if n ≤ 0 then fromDeliv c k (.set [])
    else .raise c (.native .setIter)

/-- Consume a line delivered by `readline()` according to the frame parser
that requested it.  `readint`/`readfloat` wrap their `ValueError` in
`self.error(...)`, which stores the protocol error in `_err` before it is
raised. -/
def handleLine (c : Core) (v : Bytes) (dst : LineDst) (k : K) : StepOut :=
  match dst with
  | .errLine => fromDeliv c k (.replyErr (if v = [] then errorMsgBytes else v))
  | .single dec => fromDeliv c k (if dec then .str v else .bytes v)
  | .intFor t =>
    match pyInt v with
    | some n => handleInt c n t k
    | none =>
      let m := PMsg.badInt v
      .raise { c with err := some m } (.proto m)
  | .floatVal =>
    if pyFloatValid v then fromDeliv c k (.float v)
    else
      let m := PMsg.badFloat v
      .raise { c with err := some m } (.proto m)
  | .boolVal => fromDeliv c k (.bool (decide (v = [116])))
  | .nullLine => fromDeliv c k .null

/-- Consume an exact-length payload delivered by `readline(size)`:
`_parse_bulk[_decode]` returns it, `_parse_verbatim[_decode]` splits on the
first colon — raising a plain `ValueError` (not a protocol error) when the
payload has none. -/
def handleExact (c : Core) (v : Bytes) (dst : ExactDst) (k : K) : StepOut :=
  match dst with
  | .bulkBody dec => fromDeliv c k (if dec then .str v else .bytes v)
  | .verbatimBody dec =>
    match splitColon v with
    | some pr => fromDeliv c k (if dec then .str pr.2 else .bytes pr.2)
    | none => .raise c (.native .verbatimUnpack)

/-- The `_PROTOCOLS` / `_PROTOCOLS_DECODE` tables: map the type-tag byte to
the frame parser selected for it, identified by what that parser does with
the line every frame parser begins by reading.  The two tables differ
exactly at `+`, `$`, `=` (decoded variants); `(` shares `_parse_int` with
`:` and `>` shares `_parse_mutibulk` with `*`. -/
def dispatchDst (dec : Bool) (b : Nat) : Option LineDst :=
  if b = 45 then some .errLine
  else if b = 43 then some (.single dec)
  else if b = 58 then some (.intFor .intVal)
  else if b = 40 then some (.intFor .intVal)
  else if b = 44 then some .floatVal
  else if b = 35 then some .boolVal
  else if b = 95 then some .nullLine
  else if b = 36 then some (.intFor (.bulk dec))
  else if b = 61 then some (.intFor (.verbatim dec))
  else if b = 42 then some (.intFor .arrLen)
  else if b = 62 then some (.intFor .arrLen)
  else if b = 126 then some (.intFor .setLen)
  else if b = 37 then some (.intFor .mapLen)
  else none

/-- Dispatch as the initial activity of the selected frame parser: every
frame parser starts by scanning for its first line. -/
def dispatch (dec : Bool) (b : Nat) : Option Act :=
  (dispatchDst dec b).map Act.lineFind

/-- `readone` past its wait, followed by the dispatch at the top of
`parse()`: `val = self.buf[self.pos:self.pos+1]; self.pos += 1`, then
`self._protocols[ctl]` or `raise self.error(f"Protocol Error: ...")`. -/
def readCtl (c : Core) (k : K) : StepOut :=
  match c.buf.get? c.pos with
  | some b =>
    let c' : Core := { c with pos := c.pos + 1 }
    match dispatch c.dec b with
    | some a => .cont c' a k
    | none =>
      let m := PMsg.unknownTag (some b)
      .raise { c' with err := some m } (.proto m)
  | none =>
    let c' : Core := { c with pos := c.pos + 1 }
    let m := PMsg.unknownTag none
    .raise { c' with err := some m } (.proto m)

/-- One cursor-advancing action of the generator chain. -/
def step (c : Core) (a : Act) (k : K) : StepOut :=
  match a with
  | .startParse =>
    match c.err with
    | some m => .raise c (.proto m)
    | none =>
      if c.buf.length < c.pos + 1 then
        .yield c (.waitCtl (c.pos + c.buf.length + 1)) k
      else readCtl c k
  | .waitCtl t =>
    if c.buf.length < t then .yield c (.waitCtl t) k
    else readCtl c k
  | .lineFind dst =>
    match findFrom c.buf c.pos with
    | some o =>
      handleLine { c with pos := 0, buf := c.buf.drop (o + 2) }
        ((c.buf.drop c.pos).take (o - c.pos)) dst k
    | none => .yield c (.lineWait (c.pos + c.buf.length + 1) dst) k
  | .lineWait t dst =>
    if c.buf.length < t then .yield c (.lineWait t dst) k
    else
      match findFrom c.buf c.pos with
      | some o =>
        handleLine { c with pos := 0, buf := c.buf.drop (o + 2) }
          ((c.buf.drop c.pos).take (o - c.pos)) dst k
      | none => .yield c (.lineWait (c.pos + c.buf.length + 1) dst) k
  | .exactRead size dst =>
    if (c.buf.length : Int) < size + 2 + c.pos then
      .yield c (.exactRead size dst) k
    else
      let offset : Int := (c.pos : Int) + size
      if pySlice c.buf offset (offset + 2) = crlf then
        handleExact { c with pos := 0, buf := pyDelFront c.buf (offset + 2) }
          (pySlice c.buf c.pos offset) dst k
      else
        let m := PMsg.expectedCRLF
        .raise { c with err := some m } (.proto m)

/-- Result of one `Generator.send(None)`: suspended at a yield, finished
with a value, or terminated by an exception. -/
inductive RunRes where
  | suspend (c : Core) (a : Act) (k : K)
  | value (c : Core) (v : RVal)
  | thrown (c : Core) (e : Exc)

/-- Iterate `step` until the chain yields, returns, or raises.  Every
continuing step strictly consumes unread bytes, so the fuel
`buf.length - pos + 1` that `parse_one` supplies can never run out; the
fuel-exhaustion branch exists only to keep the recursion structural. -/
def runSteps : Nat → Core → Act → K → RunRes
  | 0, c, a, k => .suspend c a k
  | fuel + 1, c, a, k =>
    match step c a k with
    | .cont c' a' k' => runSteps fuel c' a' k'
    | .yield c' a' k' => .suspend c' a' k'
    | .ret c' v => .value c' v
    | .raise c' e => .thrown c' e

/-- The full object state of a `PythonParser` instance: buffer, cursor,
sticky error, active dispatch table, `_encoding`, and the suspended
generator `_gen`. -/
structure PState where
  buf : Bytes
  pos : Nat
  err : Option PMsg
  dec : Bool
  encoding : Option Bytes
  gen : Option (Act × K)

/-- The scalar core of a parser state. -/
def PState.core (s : PState) : Core := ⟨s.buf, s.pos, s.err, s.dec⟩

/-- What a `parse_one` call gives its caller: a completed value, the
caller-supplied not-enough-data sentinel, or a raised exception. -/
inductive POut where
  | val (v : RVal)
  | nomore
  | exn (e : Exc)

/-- `parse_one`: create `parse()` if no generator is suspended, run it by
one `send(None)`; a yield returns the sentinel keeping `_gen`, completion
and exceptions clear `_gen` (exceptions propagate). -/
def parse_one (s : PState) : PState × POut :=
  let ak := s.gen.getD (Act.startParse, K.top)
  match runSteps (s.buf.length - s.pos + 1) s.core ak.1 ak.2 with
  | .suspend c a k =>
    ({ s with buf := c.buf, pos := c.pos, err := c.err, gen := some (a, k) }, .nomore)
  | .value c v =>
    ({ s with buf := c.buf, pos := c.pos, err := c.err, gen := none }, .val v)
  | .thrown c e =>
    ({ s with buf := c.buf, pos := c.pos, err := c.err, gen := none }, .exn e)

/-- Append bytes to the buffer (the owner's feed operation). -/
def feed (s : PState) (data : Bytes) : PState :=
  { s with buf := s.buf ++ data }

/-- The `encoding` property setter: store the name and switch
`_protocols` to `_PROTOCOLS_DECODE` unconditionally. -/
def setEncoding (s : PState) (enc : Option Bytes) : PState :=
  { s with encoding := enc, dec := true }

/-- A freshly constructed parser: `_PROTOCOLS_DECODE` is installed only
when the encoding argument is truthy (a nonempty name). -/
def initParser (enc : Option Bytes) : PState :=
  ⟨[], 0, none, (match enc with | none => false | some e => decide (e ≠ [])), enc, none⟩

/-- The operations the owning transport can perform on the parser. -/
inductive Op where
  | feedOp (data : Bytes)
  | parseOne
  | setEnc (enc : Option Bytes)

/-- Apply one owner operation to the parser state (a `parse_one` result
value goes to the caller; the state evolves either way). -/
def applyOp (s : PState) : Op → PState
  | .feedOp d => feed s d
  | .parseOne => (parse_one s).1
  | .setEnc e => setEncoding s e

/-- Apply a sequence of owner operations. -/
def applyOps (s : PState) (ops : List Op) : PState :=
  ops.foldl applyOp s

/-- Whether a byte string contains no CRLF pair, so that a line scan
passes over it entirely. -/
def crlfFree : Bytes → Bool
  | [] => true
  | b :: rest =>
    match rest with
    | [] => true
    | b2 :: _ => if b = 13 ∧ b2 = 10 then false else crlfFree rest

/-- The canonical decimal digit bytes of `n`, little-endian; the first
argument is structural fuel (any bound of at least `n` works). -/
def decDigitsAux : Nat → Nat → Bytes
  | 0, _ => []
  | fuel + 1, n => if n = 0 then [] else (n % 10 + 48) :: decDigitsAux fuel (n / 10)

/-- The canonical decimal representation of `n`, as the server would write
a length or integer on the wire. -/
def decRepr (n : Nat) : Bytes :=
  if n = 0 then [48] else (decDigitsAux n n).reverse

/-- Finish a run from an already-computed step outcome, with `f` fuel left
for the continuing case; `runSteps (f+1) c a k = stepOutRun f (step c a k)`. -/
def stepOutRun (f : Nat) : StepOut → RunRes
  | .cont c a k => runSteps f c a k
  | .yield c a k => .suspend c a k
  | .ret c v => .value c v
  | .raise c e => .thrown c e

/-- The cursor invariant of the data model: `pos ≤ len(buf)` (the lower
bound `0 ≤ pos` is carried by the `Nat` cursor itself). -/
def Core.inv (c : Core) : Prop := c.pos ≤ c.buf.length

/-- Soundness of a stored activity: a `waitCtl` threshold is always strictly
beyond `pos`, so a satisfied wait guarantees an unread byte. -/
def actOk (c : Core) (a : Act) : Prop :=
  match a with
  | .waitCtl t => c.pos < t
  | _ => True

/-- The invariant a finished `runSteps` run hands back. -/
def runOk : RunRes → Prop
  | .suspend c a _ => Core.inv c ∧ actOk c a
  | .value c _ => Core.inv c
  | .thrown c _ => Core.inv c

/-- The cursor invariant on a full parser state, including the suspended
generator's stored wait threshold. -/
def SInv (s : PState) : Prop :=
  s.pos ≤ s.buf.length ∧ ∀ a k, s.gen = some (a, k) → actOk s.core a

theorem findCRLF_cons2 (b b2 : Nat) (t : Bytes) :
    findCRLF (b :: b2 :: t)
      = if b = 13 ∧ b2 = 10 then some 0 else (findCRLF (b2 :: t)).map (· + 1) := rfl

theorem crlfFree_cons2 (b b2 : Nat) (t : Bytes) :
    crlfFree (b :: b2 :: t)
      = if b = 13 ∧ b2 = 10 then false else crlfFree (b2 :: t) := rfl

theorem findCRLF_boundary (p : Bytes) (r : Bytes) (h : crlfFree p = true) :
    findCRLF (p ++ 13 :: 10 :: r) = some p.length := by
  induction p with
  | nil => rw [List.nil_append, findCRLF_cons2]; simp
  | cons x p ih =>
    cases p with
    | nil =>
      rw [List.cons_append, List.nil_append, findCRLF_cons2, findCRLF_cons2]
      simp
    | cons y p2 =>
      have hx : ¬(x = 13 ∧ y = 10) := by
        intro hc
        rw [crlfFree_cons2, if_pos hc] at h
        exact Bool.false_ne_true h
      have h2 : crlfFree (y :: p2) = true := by
        rwa [crlfFree_cons2, if_neg hx] at h
      rw [List.cons_append, List.cons_append, findCRLF_cons2, if_neg hx,
        ← List.cons_append, ih h2]
      simp

theorem findCRLF_bound {l : Bytes} {i : Nat} (h : findCRLF l = some i) :
    i + 2 ≤ l.length := by
  induction l generalizing i with
  | nil => simp [findCRLF] at h
  | cons b rest ih =>
    cases rest with
    | nil => simp [findCRLF] at h
    | cons b2 rest2 =>
      rw [findCRLF_cons2] at h
      by_cases hb : b = 13 ∧ b2 = 10
      · rw [if_pos hb] at h
        have : i = 0 := by simpa using h.symm
        simp only [List.length_cons]
        omega
      · rw [if_neg hb, Option.map_eq_some'] at h
        obtain ⟨j, hj, hj2⟩ := h
        have := ih hj
        simp only [List.length_cons] at this ⊢
        omega

theorem findFrom_bound {l : Bytes} {i o : Nat} (h : findFrom l i = some o) :
    i ≤ o ∧ o + 2 ≤ l.length := by
  simp only [findFrom, Option.map_eq_some'] at h
  obtain ⟨j, hj, hj2⟩ := h
  have hb := findCRLF_bound hj
  have hlen : (l.drop i).length = l.length - i := List.length_drop i l
  omega

theorem findFrom_shape {b : Nat} {tok tail : Bytes} (h : crlfFree tok = true) :
    findFrom (b :: (tok ++ 13 :: 10 :: tail)) 1 = some (tok.length + 1) := by
  simp [findFrom, findCRLF_boundary tok tail h]

theorem crlfFree_of_no13 {l : Bytes} (h : ∀ b ∈ l, b ≠ 13) : crlfFree l = true := by
  induction l with
  | nil => rfl
  | cons x rest ih =>
    cases rest with
    | nil => rfl
    | cons y rest2 =>
      have hx : x ≠ 13 := h x (by simp)
      have h2 : crlfFree (y :: rest2) = true := ih (fun b hb => h b (by simp [hb]))
      rw [crlfFree_cons2, if_neg (by simp [hx]), h2]

theorem decDigitsAux_digits {fuel n : Nat} :
    ∀ b ∈ decDigitsAux fuel n, 48 ≤ b ∧ b ≤ 57 := by
  induction fuel generalizing n with
  | zero => simp [decDigitsAux]
  | succ f ih =>
    intro b hb
    by_cases hn : n = 0
    · simp [decDigitsAux, hn] at hb
    · simp only [decDigitsAux, hn, if_false, List.mem_cons] at hb
      rcases hb with hb | hb
      · have : n % 10 < 10 := Nat.mod_lt _ (by omega)
        omega
      · exact ih b hb

theorem decRepr_digits {n : Nat} : ∀ b ∈ decRepr n, 48 ≤ b ∧ b ≤ 57 := by
  unfold decRepr
  by_cases hn : n = 0
  · simp [hn]
  · simp only [hn, if_false, List.mem_reverse]
    exact decDigitsAux_digits

theorem crlfFree_decRepr (n : Nat) : crlfFree (decRepr n) = true :=
  crlfFree_of_no13 (fun b hb => by have := decRepr_digits b hb; omega)

theorem dropWhile_of_head {p : Nat → Bool} {l : Bytes}
    (h : ∀ b ∈ l, p b = false) : l.dropWhile p = l := by
  cases l with
  | nil => rfl
  | cons b rest => simp [List.dropWhile, h b (by simp)]

theorem stripWS_of_no_space {l : Bytes} (h : ∀ b ∈ l, isPySpace b = false) :
    stripWS l = l := by
  unfold stripWS
  rw [dropWhile_of_head h, dropWhile_of_head (fun b hb => h b (List.mem_reverse.mp hb)),
    List.reverse_reverse]

theorem isPySpace_of_digit {b : Nat} (h : isDigit b = true) : isPySpace b = false := by
  simp only [isDigit, Bool.and_eq_true, decide_eq_true_eq] at h
  simp only [isPySpace, Bool.or_eq_false_iff, decide_eq_false_iff_not]
  omega

/-- The accumulator step of reading one decimal digit. -/
def digStep (a b : Nat) : Nat := a * 10 + (b - 48)

theorem usTail_all_digits {l : Bytes} (h : ∀ b ∈ l, isDigit b = true) (acc : Nat) :
    usTail acc l = some (l.foldl digStep acc) := by
  induction l generalizing acc with
  | nil => rfl
  | cons b rest ih =>
    have hb := h b (by simp)
    conv_lhs => unfold usTail
    rw [if_pos hb, List.foldl_cons]
    exact ih (fun x hx => h x (by simp [hx])) _

theorem usNat_all_digits {l : Bytes} (h : ∀ b ∈ l, isDigit b = true) (hne : l ≠ []) :
    usNat l = some (l.foldl digStep 0) := by
  cases l with
  | nil => exact absurd rfl hne
  | cons b rest =>
    have hb := h b (by simp)
    simp only [usNat, hb, if_true, List.foldl_cons]
    have : digStep 0 b = b - 48 := by simp [digStep]
    rw [this]
    exact usTail_all_digits (fun x hx => h x (by simp [hx])) _

theorem pyInt_all_digits {l : Bytes} (h : ∀ b ∈ l, isDigit b = true) (hne : l ≠ []) :
    pyInt l = some ((l.foldl digStep 0 : Nat) : Int) := by
  have hs : stripWS l = l := stripWS_of_no_space (fun b hb => isPySpace_of_digit (h b hb))
  unfold pyInt
  rw [hs]
  cases l with
  | nil => exact absurd rfl hne
  | cons b rest =>
    have hb := h b (by simp)
    have hb48 : 48 ≤ b := by
      simp only [isDigit, Bool.and_eq_true, decide_eq_true_eq] at hb
      exact hb.1
    have h43 : ¬(b = 43) := by omega
    have h45 : ¬(b = 45) := by omega
    simp only [h43, h45, if_false]
    rw [usNat_all_digits h hne]
    rfl

theorem foldl_decDigitsAux {fuel : Nat} :
    ∀ n acc, n ≤ fuel →
      (decDigitsAux fuel n).reverse.foldl digStep acc
        = acc * 10 ^ (decDigitsAux fuel n).length + n := by
  induction fuel with
  | zero =>
    intro n acc hn
    have : n = 0 := by omega
    simp [decDigitsAux, this]
  | succ f ih =>
    intro n acc hn
    by_cases h0 : n = 0
    · simp [decDigitsAux, h0]
    · have hdiv : n / 10 ≤ f := by
        have : n / 10 < n := Nat.div_lt_self (by omega) (by omega)
        omega
      simp only [decDigitsAux, h0, if_false, List.reverse_cons, List.foldl_append,
        List.foldl_cons, List.foldl_nil, List.length_cons]
      rw [ih (n / 10) acc hdiv]
      have : digStep (acc * 10 ^ (decDigitsAux f (n / 10)).length + n / 10) (n % 10 + 48)
          = (acc * 10 ^ (decDigitsAux f (n / 10)).length + n / 10) * 10 + n % 10 := by
        simp [digStep]
      rw [this, pow_succ]
      have := Nat.div_add_mod n 10
      ring_nf
      omega

theorem pyInt_decRepr (n : Nat) : pyInt (decRepr n) = some (n : Int) := by
  by_cases h0 : n = 0
  · subst h0; rfl
  · have hd : ∀ b ∈ decRepr n, isDigit b = true := by
      intro b hb
      have := decRepr_digits b hb
      simp only [isDigit, Bool.and_eq_true, decide_eq_true_eq]
      omega
    have hne : decRepr n ≠ [] := by
      unfold decRepr
      simp only [h0, if_false]
      cases hn : n with
      | zero => exact absurd hn h0
      | succ m =>
        simp [decDigitsAux, h0]
    rw [pyInt_all_digits hd hne]
    unfold decRepr
    simp only [h0, if_false]
    rw [foldl_decDigitsAux n 0 (le_refl n)]
    simp

theorem runSteps_cont {c a k c' a' k'} (f : Nat) (hf : 1 ≤ f)
    (h : step c a k = .cont c' a' k') :
    runSteps f c a k = runSteps (f - 1) c' a' k' := by
  cases f with
  | zero => omega
  | succ g => simp [runSteps, h]

theorem runSteps_yield {c a k c' a' k'} (f : Nat) (hf : 1 ≤ f)
    (h : step c a k = .yield c' a' k') :
    runSteps f c a k = .suspend c' a' k' := by
  cases f with
  | zero => omega
  | succ g => simp [runSteps, h]

theorem runSteps_ret {c a k c' v} (f : Nat) (hf : 1 ≤ f)
    (h : step c a k = .ret c' v) :
    runSteps f c a k = .value c' v := by
  cases f with
  | zero => omega
  | succ g => simp [runSteps, h]

theorem runSteps_raise {c a k c' e} (f : Nat) (hf : 1 ≤ f)
    (h : step c a k = .raise c' e) :
    runSteps f c a k = .thrown c' e := by
  cases f with
  | zero => omega
  | succ g => simp [runSteps, h]

theorem parse_one_value {s : PState} {c : Core} {v : RVal}
    (h : runSteps (s.buf.length - s.pos + 1) s.core (s.gen.getD (Act.startParse, K.top)).1
      (s.gen.getD (Act.startParse, K.top)).2 = .value c v) :
    parse_one s = ({ s with buf := c.buf, pos := c.pos, err := c.err, gen := none }, .val v) := by
  simp [parse_one, h]

theorem parse_one_nomore {s : PState} {c : Core} {a : Act} {k : K}
    (h : runSteps (s.buf.length - s.pos + 1) s.core (s.gen.getD (Act.startParse, K.top)).1
      (s.gen.getD (Act.startParse, K.top)).2 = .suspend c a k) :
    parse_one s
      = ({ s with buf := c.buf, pos := c.pos, err := c.err, gen := some (a, k) }, .nomore) := by
  simp [parse_one, h]

theorem parse_one_exn {s : PState} {c : Core} {e : Exc}
    (h : runSteps (s.buf.length - s.pos + 1) s.core (s.gen.getD (Act.startParse, K.top)).1
      (s.gen.getD (Act.startParse, K.top)).2 = .thrown c e) :
    parse_one s = ({ s with buf := c.buf, pos := c.pos, err := c.err, gen := none }, .exn e) := by
  simp [parse_one, h]

theorem step_start_dispatch {c : Core} {k : K} {b : Nat} {r : Bytes} {a : Act}
    (hb : c.buf = b :: r) (hp : c.pos = 0) (he : c.err = none)
    (hd : dispatch c.dec b = some a) :
    step c .startParse k = .cont { c with pos := 1 } a k := by
  simp only [step, he]
  rw [if_neg (by rw [hb, hp]; simp)]
  simp only [readCtl, hb, hp, List.get?, hd]
  simp [he]

theorem step_start_unknown {c : Core} {k : K} {b : Nat} {r : Bytes}
    (hb : c.buf = b :: r) (hp : c.pos = 0) (he : c.err = none)
    (hd : dispatch c.dec b = none) :
    step c .startParse k
      = .raise { c with pos := 1, err := some (PMsg.unknownTag (some b)) }
          (.proto (PMsg.unknownTag (some b))) := by
  simp only [step, he]
  rw [if_neg (by rw [hb, hp]; simp)]
  simp only [readCtl, hb, hp, List.get?, hd]

theorem step_line {c : Core} {k : K} {dst : LineDst} {b : Nat} {tok tail : Bytes}
    (hb : c.buf = b :: (tok ++ 13 :: 10 :: tail)) (hp : c.pos = 1)
    (hf : crlfFree tok = true) :
    step c (.lineFind dst) k = handleLine { c with pos := 0, buf := tail } tok dst k := by
  have h1 : findFrom c.buf c.pos = some (tok.length + 1) := by
    rw [hb, hp]; exact findFrom_shape hf
  simp only [step, h1]
  have hv : (c.buf.drop c.pos).take (tok.length + 1 - c.pos) = tok := by
    rw [hb, hp]
    simp only [List.drop_succ_cons, List.drop_zero, Nat.add_sub_cancel]
    have : tok ++ 13 :: 10 :: tail = tok ++ (13 :: 10 :: tail) := rfl
    rw [this, List.take_left]
  have hd : c.buf.drop (tok.length + 1 + 2) = tail := by
    rw [hb]
    have h3 : tok.length + 1 + 2 = (tok ++ [13, 10]).length + 1 := by simp
    rw [h3]
    have h4 : b :: (tok ++ 13 :: 10 :: tail) = b :: ((tok ++ [13, 10]) ++ tail) := by simp
    rw [h4]
    have h5 : (tok ++ [13, 10]).length + 1 = (tok ++ [13, 10]).length + 1 := rfl
    simp only [List.drop_succ_cons]
    exact List.drop_left _ _
  rw [hv, hd]

theorem sliceIdx_ofNat {len n : Nat} (h : n ≤ len) : sliceIdx len (n : Int) = n := by
  unfold sliceIdx
  rw [if_neg (by omega)]
  simp [Int.toNat_ofNat, Nat.min_eq_left h]

theorem step_exact {c : Core} {k : K} {dst : ExactDst} {p tail : Bytes}
    (hb : c.buf = p ++ 13 :: 10 :: tail) (hp : c.pos = 0) :
    step c (.exactRead (p.length : Int) dst) k
      = handleExact { c with pos := 0, buf := tail } p dst k := by
  have hlen : c.buf.length = p.length + 2 + tail.length := by rw [hb]; simp; omega
  simp only [step]
  rw [if_neg (by rw [hlen, hp]; push_cast; omega)]
  have hsplit : c.buf = (p ++ [13, 10]) ++ tail := by rw [hb]; simp
  have hcast2 : ((c.pos : Int) + (p.length : Int)) + 2 = ((p.length + 2 : Nat) : Int) := by
    rw [hp]; push_cast; ring
  have hcast1 : (c.pos : Int) + (p.length : Int) = ((p.length : Nat) : Int) := by
    rw [hp]; push_cast; ring
  have hidx2 : sliceIdx c.buf.length ((c.pos : Int) + (p.length : Int) + 2) = p.length + 2 := by
    rw [hcast2, sliceIdx_ofNat (by omega)]
  have hidx1 : sliceIdx c.buf.length ((c.pos : Int) + (p.length : Int)) = p.length := by
    rw [hcast1, sliceIdx_ofNat (by omega)]
  have hidx0 : sliceIdx c.buf.length (c.pos : Int) = 0 := by
    rw [hp]; unfold sliceIdx; simp
  have hcrlf : pySlice c.buf ((c.pos : Int) + (p.length : Int))
      ((c.pos : Int) + (p.length : Int) + 2) = crlf := by
    unfold pySlice
    rw [hidx2, hidx1, hsplit]
    have : ((p ++ [13, 10]) ++ tail).take (p.length + 2) = p ++ [13, 10] := by
      have h6 : p.length + 2 = (p ++ [13, 10]).length := by simp
      rw [h6, List.take_left]
    rw [this, show p.length = p.length from rfl, List.drop_left']
    · rfl
    · simp
  have hval : pySlice c.buf (c.pos : Int) ((c.pos : Int) + (p.length : Int)) = p := by
    unfold pySlice
    rw [hidx1, hidx0, hb, List.drop_zero]
    have : p ++ 13 :: 10 :: tail = p ++ (13 :: 10 :: tail) := rfl
    rw [this, List.take_left]
  have hdel : pyDelFront c.buf ((c.pos : Int) + (p.length : Int) + 2) = tail := by
    unfold pyDelFront
    rw [hidx2, hsplit]
    have h6 : p.length + 2 = (p ++ [13, 10]).length := by simp
    rw [h6, List.drop_left]
  rw [hcrlf, hval, hdel, if_pos rfl]

theorem step_exact_wait {c : Core} {k : K} {dst : ExactDst} {size : Int}
    (h : (c.buf.length : Int) < size + 2 + c.pos) :
    step c (.exactRead size dst) k = .yield c (.exactRead size dst) k := by
  simp only [step]
  rw [if_pos h]

theorem step_exact_bad {c : Core} {k : K} {dst : ExactDst} {p : Bytes} {x y : Nat} {r : Bytes}
    (hb : c.buf = p ++ x :: y :: r) (hp : c.pos = 0) (hxy : ¬(x = 13 ∧ y = 10)) :
    step c (.exactRead (p.length : Int) dst) k
      = .raise { c with err := some PMsg.expectedCRLF } (.proto PMsg.expectedCRLF) := by
  have hlen : c.buf.length = p.length + 2 + r.length := by rw [hb]; simp; omega
  simp only [step]
  rw [if_neg (by rw [hlen, hp]; push_cast; omega)]
  have hsplit : c.buf = (p ++ [x, y]) ++ r := by rw [hb]; simp
  have hcast2 : ((c.pos : Int) + (p.length : Int)) + 2 = ((p.length + 2 : Nat) : Int) := by
    rw [hp]; push_cast; ring
  have hidx2 : sliceIdx c.buf.length ((c.pos : Int) + (p.length : Int) + 2) = p.length + 2 := by
    rw [hcast2, sliceIdx_ofNat (by omega)]
  have hcast1 : (c.pos : Int) + (p.length : Int) = ((p.length : Nat) : Int) := by
    rw [hp]; push_cast; ring
  have hidx1 : sliceIdx c.buf.length ((c.pos : Int) + (p.length : Int)) = p.length := by
    rw [hcast1, sliceIdx_ofNat (by omega)]
  have hslice : pySlice c.buf ((c.pos : Int) + (p.length : Int))
      ((c.pos : Int) + (p.length : Int) + 2) = [x, y] := by
    unfold pySlice
    rw [hidx2, hidx1, hsplit]
    have : ((p ++ [x, y]) ++ r).take (p.length + 2) = p ++ [x, y] := by
      have h6 : p.length + 2 = (p ++ [x, y]).length := by simp
      rw [h6, List.take_left]
    rw [this, show p.length = p.length from rfl, List.drop_left' rfl]
  rw [hslice]
  rw [if_neg (by simp only [crlf, List.cons.injEq, and_true]; exact hxy)]

theorem fromDeliv_no_raise {c : Core} {k : K} {v : RVal} {c' : Core} {e : Exc}
    (h : fromDeliv c k v = .raise c' e) : False := by
  unfold fromDeliv at h
  cases hd : deliver v k <;> rw [hd] at h <;> exact StepOut.noConfusion h

theorem handleInt_raise_proto {c : Core} {n : Int} {t : IntDst} {k : K} {c' : Core} {m : PMsg}
    (h : handleInt c n t k = .raise c' (.proto m)) : c'.err = some m := by
  cases t with
  | intVal =>
    simp only [handleInt] at h
    exact (fromDeliv_no_raise h).elim
  | bulk dec =>
    simp only [handleInt] at h
    split at h
    · exact (fromDeliv_no_raise h).elim
    · exact StepOut.noConfusion h
  | verbatim dec =>
    simp only [handleInt] at h
    split at h
    · exact (fromDeliv_no_raise h).elim
    · exact StepOut.noConfusion h
  | arrLen =>
    simp only [handleInt] at h
    split at h
    · exact (fromDeliv_no_raise h).elim
    · split at h
      · exact (fromDeliv_no_raise h).elim
      · exact StepOut.noConfusion h
  | mapLen =>
    simp only [handleInt] at h
    split at h
    · exact (fromDeliv_no_raise h).elim
    · split at h
      · exact (fromDeliv_no_raise h).elim
      · exact StepOut.noConfusion h
  | setLen =>
    simp only [handleInt] at h
    split at h
    · exact (fromDeliv_no_raise h).elim
    · split at h
      · exact (fromDeliv_no_raise h).elim
      · injection h with h1 h2
        exact Exc.noConfusion h2

theorem handleExact_raise_proto {c : Core} {v : Bytes} {dst : ExactDst} {k : K}
    {c' : Core} {m : PMsg}
    (h : handleExact c v dst k = .raise c' (.proto m)) : c'.err = some m := by
  cases dst with
  | bulkBody dec =>
    simp only [handleExact] at h
    exact (fromDeliv_no_raise h).elim
  | verbatimBody dec =>
    simp only [handleExact] at h
    split at h
    · exact (fromDeliv_no_raise h).elim
    · injection h with h1 h2
      exact Exc.noConfusion h2

theorem handleLine_raise_proto {c : Core} {v : Bytes} {dst : LineDst} {k : K}
    {c' : Core} {m : PMsg}
    (h : handleLine c v dst k = .raise c' (.proto m)) : c'.err = some m := by
  cases dst with
  | errLine =>
    simp only [handleLine] at h
    exact (fromDeliv_no_raise h).elim
  | single dec =>
    simp only [handleLine] at h
    exact (fromDeliv_no_raise h).elim
  | boolVal =>
    simp only [handleLine] at h
    exact (fromDeliv_no_raise h).elim
  | nullLine =>
    simp only [handleLine] at h
    exact (fromDeliv_no_raise h).elim
  | intFor t =>
    simp only [handleLine] at h
    split at h
    · exact handleInt_raise_proto h
    · injection h with h1 h2
      injection h2 with h3
      rw [← h1, ← h3]
  | floatVal =>
    simp only [handleLine] at h
    split at h
    · exact (fromDeliv_no_raise h).elim
    · injection h with h1 h2
      injection h2 with h3
      rw [← h1, ← h3]

theorem readCtl_raise_proto {c : Core} {k : K} {c' : Core} {m : PMsg}
    (h : readCtl c k = .raise c' (.proto m)) : c'.err = some m := by
  unfold readCtl at h
  split at h
  · split at h
    · exact StepOut.noConfusion h
    · injection h with h1 h2
      injection h2 with h3
      rw [← h1, ← h3]
  · injection h with h1 h2
    injection h2 with h3
    rw [← h1, ← h3]

theorem step_raise_proto {c : Core} {a : Act} {k : K} {c' : Core} {m : PMsg}
    (h : step c a k = .raise c' (.proto m)) : c'.err = some m := by
  cases a with
  | startParse =>
    simp only [step] at h
    split at h
    · rename_i m0 heq
      injection h with h1 h2
      injection h2 with h3
      rw [← h1, heq, h3]
    · split at h
      · exact StepOut.noConfusion h
      · exact readCtl_raise_proto h
  | waitCtl t =>
    simp only [step] at h
    split at h
    · exact StepOut.noConfusion h
    · exact readCtl_raise_proto h
  | lineFind dst =>
    simp only [step] at h
    split at h
    · exact handleLine_raise_proto h
    · exact StepOut.noConfusion h
  | lineWait t dst =>
    simp only [step] at h
    split at h
    · exact StepOut.noConfusion h
    · split at h
      · exact handleLine_raise_proto h
      · exact StepOut.noConfusion h
  | exactRead size dst =>
    simp only [step] at h
    split at h
    · exact StepOut.noConfusion h
    · split at h
      · exact handleExact_raise_proto h
      · injection h with h1 h2
        injection h2 with h3
        rw [← h1, ← h3]

theorem runSteps_thrown_proto {f : Nat} {c : Core} {a : Act} {k : K} {c' : Core} {m : PMsg}
    (h : runSteps f c a k = .thrown c' (.proto m)) : c'.err = some m := by
  induction f generalizing c a k with
  | zero => exact RunRes.noConfusion h
  | succ g ih =>
    unfold runSteps at h
    cases hs : step c a k with
    | cont c2 a2 k2 =>
      rw [hs] at h
      exact ih h
    | yield c2 a2 k2 =>
      rw [hs] at h
      exact RunRes.noConfusion h
    | ret c2 v =>
      rw [hs] at h
      exact RunRes.noConfusion h
    | raise c2 e =>
      rw [hs] at h
      injection h with h1 h2
      rw [← h1]
      rw [h2] at hs
      exact step_raise_proto hs

theorem parse_one_exn_fields {s s₁ : PState} {e : Exc}
    (h : parse_one s = (s₁, .exn e)) :
    s₁.gen = none ∧ s₁.dec = s.dec ∧ s₁.encoding = s.encoding := by
  unfold parse_one at h
  dsimp only at h
  split at h
  · exact absurd (congrArg Prod.snd h) (by simp)
  · exact absurd (congrArg Prod.snd h) (by simp)
  · have := congrArg Prod.fst h
    simp only at this
    rw [← this]
    exact ⟨rfl, rfl, rfl⟩

theorem parse_one_exn_err {s s₁ : PState} {m : PMsg}
    (h : parse_one s = (s₁, .exn (.proto m))) : s₁.err = some m ∧ s₁.gen = none := by
  unfold parse_one at h
  dsimp only at h
  split at h
  · exact absurd (congrArg Prod.snd h) (by simp)
  · exact absurd (congrArg Prod.snd h) (by simp)
  · rename_i c e heq
    have h1 := congrArg Prod.fst h
    have h2 := congrArg Prod.snd h
    simp only at h1 h2
    injection h2 with h3
    rw [h3] at heq
    have := runSteps_thrown_proto heq
    rw [← h1]
    exact ⟨this, rfl⟩

theorem parse_one_poisoned {s : PState} {m : PMsg} (he : s.err = some m)
    (hg : s.gen = none) :
    parse_one s = (s, .exn (.proto m)) := by
  obtain ⟨b, p, er, d, enc, g⟩ := s
  simp only at he hg
  subst he hg
  have hs : step (PState.core ⟨b, p, some m, d, enc, none⟩) .startParse K.top
      = .raise (PState.core ⟨b, p, some m, d, enc, none⟩) (.proto m) := by
    simp [step, PState.core]
  have hr : runSteps
      ((PState.mk b p (some m) d enc none).buf.length - (PState.mk b p (some m) d enc none).pos + 1)
      (PState.core ⟨b, p, some m, d, enc, none⟩)
      ((PState.mk b p (some m) d enc none).gen.getD (Act.startParse, K.top)).1
      ((PState.mk b p (some m) d enc none).gen.getD (Act.startParse, K.top)).2
      = .thrown (PState.core ⟨b, p, some m, d, enc, none⟩) (.proto m) :=
    runSteps_raise _ (by omega) hs
  have hpe := parse_one_exn hr
  rw [hpe]
  simp [PState.core]

theorem poisoned_ops {s : PState} {m : PMsg} (he : s.err = some m) (hg : s.gen = none)
    (ops : List Op) :
    (applyOps s ops).err = some m ∧ (applyOps s ops).gen = none := by
  induction ops generalizing s with
  | nil => exact ⟨he, hg⟩
  | cons op rest ih =>
    rw [applyOps, List.foldl_cons]
    cases op with
    | feedOp d =>
      exact ih (show (feed s d).err = some m from he) (show (feed s d).gen = none from hg)
    | parseOne =>
      have hp := parse_one_poisoned he hg
      have : applyOp s Op.parseOne = s := by
        simp [applyOp, hp]
      rw [this]
      exact ih he hg
    | setEnc e =>
      exact ih (show (setEncoding s e).err = some m from he)
        (show (setEncoding s e).gen = none from hg)

theorem runSteps_succ (f : Nat) (c : Core) (a : Act) (k : K) :
    runSteps (f + 1) c a k = stepOutRun f (step c a k) := by
  cases hs : step c a k <;> simp [runSteps, stepOutRun, hs]

theorem fromDeliv_top (c : Core) (v : RVal) : fromDeliv c K.top v = .ret c v := rfl

theorem stepOutRun_cont (f : Nat) (c : Core) (a : Act) (k : K) :
    stepOutRun f (.cont c a k) = runSteps f c a k := rfl

theorem stepOutRun_yield (f : Nat) (c : Core) (a : Act) (k : K) :
    stepOutRun f (.yield c a k) = .suspend c a k := rfl

theorem stepOutRun_ret (f : Nat) (c : Core) (v : RVal) :
    stepOutRun f (.ret c v) = .value c v := rfl

theorem stepOutRun_raise (f : Nat) (c : Core) (e : Exc) :
    stepOutRun f (.raise c e) = .thrown c e := rfl

theorem runSteps_head_line {dec : Bool} {b : Nat} {dst : LineDst} {tok rest : Bytes} {f : Nat}
    (hd : dispatch dec b = some (.lineFind dst)) (hf : crlfFree tok = true) (hfl : 2 ≤ f) :
    runSteps f ⟨b :: (tok ++ 13 :: 10 :: rest), 0, none, dec⟩ .startParse K.top
      = stepOutRun (f - 2) (handleLine ⟨rest, 0, none, dec⟩ tok dst K.top) := by
  rw [runSteps_cont f (by omega) (step_start_dispatch rfl rfl rfl hd)]
  have hf1 : f - 1 = (f - 2) + 1 := by omega
  rw [hf1, runSteps_succ]
  rw [show (step ⟨b :: (tok ++ 13 :: 10 :: rest), 1, none, dec⟩ (.lineFind dst) K.top)
      = handleLine ⟨rest, 0, none, dec⟩ tok dst K.top from
    step_line rfl rfl hf]

theorem parse_one_val2 {s : PState} {a0 : Act} {k0 : K} {c : Core} {v : RVal}
    (hg : s.gen.getD (Act.startParse, K.top) = (a0, k0))
    (h : runSteps (s.buf.length - s.pos + 1) s.core a0 k0 = .value c v) :
    parse_one s = ({ s with buf := c.buf, pos := c.pos, err := c.err, gen := none }, .val v) := by
  apply parse_one_value
  rw [hg]
  exact h

theorem parse_one_nomore2 {s : PState} {a0 : Act} {k0 : K} {c : Core} {a : Act} {k : K}
    (hg : s.gen.getD (Act.startParse, K.top) = (a0, k0))
    (h : runSteps (s.buf.length - s.pos + 1) s.core a0 k0 = .suspend c a k) :
    parse_one s
      = ({ s with buf := c.buf, pos := c.pos, err := c.err, gen := some (a, k) }, .nomore) := by
  apply parse_one_nomore
  rw [hg]
  exact h

theorem parse_one_exn2 {s : PState} {a0 : Act} {k0 : K} {c : Core} {e : Exc}
    (hg : s.gen.getD (Act.startParse, K.top) = (a0, k0))
    (h : runSteps (s.buf.length - s.pos + 1) s.core a0 k0 = .thrown c e) :
    parse_one s = ({ s with buf := c.buf, pos := c.pos, err := c.err, gen := none }, .exn e) := by
  apply parse_one_exn
  rw [hg]
  exact h

theorem splitColon_none {l : Bytes} (h : 58 ∉ l) : splitColon l = none := by
  induction l with
  | nil => rfl
  | cons b rest ih =>
    have hb : ¬(b = 58) := fun hc => h (by simp [hc])
    simp only [splitColon, hb, if_false]
    rw [ih (fun hc => h (by simp [hc]))]
    rfl

theorem run_int_value {tagb : Nat}
    (hd : dispatch false tagb = some (Act.lineFind (LineDst.intFor IntDst.intVal)))
    (n : Nat) (rest : Bytes) :
    parse_one (feed (initParser none) (tagb :: (decRepr n ++ 13 :: 10 :: rest)))
      = (⟨rest, 0, none, false, none, none⟩, POut.val (RVal.int (n : Int))) := by
  have hhl : handleLine ⟨rest, 0, none, false⟩ (decRepr n) (.intFor .intVal) K.top
      = .ret ⟨rest, 0, none, false⟩ (RVal.int (n : Int)) := by
    simp only [handleLine, pyInt_decRepr, handleInt, fromDeliv_top]
  have hrun : runSteps ((tagb :: (decRepr n ++ 13 :: 10 :: rest)).length + 1)
      ⟨tagb :: (decRepr n ++ 13 :: 10 :: rest), 0, none, false⟩ Act.startParse K.top
      = RunRes.value ⟨rest, 0, none, false⟩ (RVal.int (n : Int)) := by
    rw [runSteps_head_line hd (crlfFree_decRepr n) (by simp only [List.length_cons]; omega),
      hhl, stepOutRun_ret]
  exact @parse_one_val2 (feed (initParser none) (tagb :: (decRepr n ++ 13 :: 10 :: rest)))
    Act.startParse K.top ⟨rest, 0, none, false⟩ (RVal.int (n : Int)) rfl hrun

theorem run_error_line (msg rest : Bytes) (hf : crlfFree msg = true) :
    parse_one (feed (initParser none) (45 :: (msg ++ 13 :: 10 :: rest)))
      = (⟨rest, 0, none, false, none, none⟩,
         POut.val (RVal.replyErr (if msg = [] then errorMsgBytes else msg))) := by
  have hd : dispatch false 45 = some (Act.lineFind LineDst.errLine) := rfl
  have hhl : handleLine ⟨rest, 0, none, false⟩ msg .errLine K.top
      = .ret ⟨rest, 0, none, false⟩ (RVal.replyErr (if msg = [] then errorMsgBytes else msg)) := by
    simp only [handleLine, fromDeliv_top]
  have hrun : runSteps ((45 :: (msg ++ 13 :: 10 :: rest)).length + 1)
      ⟨45 :: (msg ++ 13 :: 10 :: rest), 0, none, false⟩ Act.startParse K.top
      = RunRes.value ⟨rest, 0, none, false⟩
          (RVal.replyErr (if msg = [] then errorMsgBytes else msg)) := by
    rw [runSteps_head_line hd hf (by simp only [List.length_cons]; omega), hhl, stepOutRun_ret]
  exact @parse_one_val2 (feed (initParser none) (45 :: (msg ++ 13 :: 10 :: rest)))
    Act.startParse K.top ⟨rest, 0, none, false⟩
    (RVal.replyErr (if msg = [] then errorMsgBytes else msg)) rfl hrun

theorem run_line_badInt {tagb : Nat} {t : IntDst}
    (hd : dispatch false tagb = some (Act.lineFind (LineDst.intFor t)))
    (tok rest : Bytes) (hf : crlfFree tok = true) (hpi : pyInt tok = none) :
    parse_one (feed (initParser none) (tagb :: (tok ++ 13 :: 10 :: rest)))
      = (⟨rest, 0, some (PMsg.badInt tok), false, none, none⟩,
         POut.exn (Exc.proto (PMsg.badInt tok))) := by
  have hhl : handleLine ⟨rest, 0, none, false⟩ tok (.intFor t) K.top
      = .raise ⟨rest, 0, some (PMsg.badInt tok), false⟩ (.proto (PMsg.badInt tok)) := by
    simp only [handleLine, hpi]
  have hrun : runSteps ((tagb :: (tok ++ 13 :: 10 :: rest)).length + 1)
      ⟨tagb :: (tok ++ 13 :: 10 :: rest), 0, none, false⟩ Act.startParse K.top
      = RunRes.thrown ⟨rest, 0, some (PMsg.badInt tok), false⟩
          (Exc.proto (PMsg.badInt tok)) := by
    rw [runSteps_head_line hd hf (by simp only [List.length_cons]; omega), hhl, stepOutRun_raise]
  exact @parse_one_exn2 (feed (initParser none) (tagb :: (tok ++ 13 :: 10 :: rest)))
    Act.startParse K.top ⟨rest, 0, some (PMsg.badInt tok), false⟩
    (Exc.proto (PMsg.badInt tok)) rfl hrun

theorem run_line_badFloat (tok rest : Bytes) (hf : crlfFree tok = true)
    (hpf : pyFloatValid tok = false) :
    parse_one (feed (initParser none) (44 :: (tok ++ 13 :: 10 :: rest)))
      = (⟨rest, 0, some (PMsg.badFloat tok), false, none, none⟩,
         POut.exn (Exc.proto (PMsg.badFloat tok))) := by
  have hd : dispatch false 44 = some (Act.lineFind LineDst.floatVal) := rfl
  have hhl : handleLine ⟨rest, 0, none, false⟩ tok .floatVal K.top
      = .raise ⟨rest, 0, some (PMsg.badFloat tok), false⟩ (.proto (PMsg.badFloat tok)) := by
    simp only [handleLine, hpf]
    rfl
  have hrun : runSteps ((44 :: (tok ++ 13 :: 10 :: rest)).length + 1)
      ⟨44 :: (tok ++ 13 :: 10 :: rest), 0, none, false⟩ Act.startParse K.top
      = RunRes.thrown ⟨rest, 0, some (PMsg.badFloat tok), false⟩
          (Exc.proto (PMsg.badFloat tok)) := by
    rw [runSteps_head_line hd hf (by simp only [List.length_cons]; omega), hhl, stepOutRun_raise]
  exact @parse_one_exn2 (feed (initParser none) (44 :: (tok ++ 13 :: 10 :: rest)))
    Act.startParse K.top ⟨rest, 0, some (PMsg.badFloat tok), false⟩
    (Exc.proto (PMsg.badFloat tok)) rfl hrun

theorem run_unknown_tag {b : Nat} (rest : Bytes) (hd : dispatch false b = none) :
    parse_one (feed (initParser none) (b :: rest))
      = (⟨b :: rest, 1, some (PMsg.unknownTag (some b)), false, none, none⟩,
         POut.exn (Exc.proto (PMsg.unknownTag (some b)))) := by
  have hrun : runSteps ((b :: rest).length + 1) ⟨b :: rest, 0, none, false⟩
      Act.startParse K.top
      = RunRes.thrown ⟨b :: rest, 1, some (PMsg.unknownTag (some b)), false⟩
          (Exc.proto (PMsg.unknownTag (some b))) :=
    runSteps_raise _ (by omega) (step_start_unknown rfl rfl rfl hd)
  exact @parse_one_exn2 (feed (initParser none) (b :: rest)) Act.startParse K.top
    ⟨b :: rest, 1, some (PMsg.unknownTag (some b)), false⟩
    (Exc.proto (PMsg.unknownTag (some b))) rfl hrun

theorem run_missing_crlf (payload : Bytes) (x y : Nat) (rest : Bytes)
    (hxy : ¬(x = 13 ∧ y = 10)) :
    parse_one (feed (initParser none)
        (36 :: (decRepr payload.length ++ 13 :: 10 :: (payload ++ x :: y :: rest))))
      = (⟨payload ++ x :: y :: rest, 0, some PMsg.expectedCRLF, false, none, none⟩,
         POut.exn (Exc.proto PMsg.expectedCRLF)) := by
  have hd : dispatch false 36 = some (Act.lineFind (LineDst.intFor (IntDst.bulk false))) := rfl
  have hhl : handleLine ⟨payload ++ x :: y :: rest, 0, none, false⟩ (decRepr payload.length)
      (.intFor (.bulk false)) K.top
      = .cont ⟨payload ++ x :: y :: rest, 0, none, false⟩
          (.exactRead (payload.length : Int) (.bulkBody false)) K.top := by
    simp only [handleLine, pyInt_decRepr, handleInt]
    rw [if_neg (by omega : ¬((payload.length : Int) = -1))]
  have hex : step ⟨payload ++ x :: y :: rest, 0, none, false⟩
      (.exactRead (payload.length : Int) (.bulkBody false)) K.top
      = .raise ⟨payload ++ x :: y :: rest, 0, some PMsg.expectedCRLF, false⟩
          (.proto PMsg.expectedCRLF) :=
    step_exact_bad rfl rfl hxy
  have hrun : ∀ f, 4 ≤ f →
      runSteps f ⟨36 :: (decRepr payload.length ++ 13 :: 10 :: (payload ++ x :: y :: rest)),
        0, none, false⟩ Act.startParse K.top
      = RunRes.thrown ⟨payload ++ x :: y :: rest, 0, some PMsg.expectedCRLF, false⟩
          (Exc.proto PMsg.expectedCRLF) := by
    intro f hfl
    rw [runSteps_head_line hd (crlfFree_decRepr _) (by omega), hhl, stepOutRun_cont,
      show f - 2 = (f - 3) + 1 from by omega, runSteps_succ, hex, stepOutRun_raise]
  exact @parse_one_exn2
    (feed (initParser none)
      (36 :: (decRepr payload.length ++ 13 :: 10 :: (payload ++ x :: y :: rest))))
    Act.startParse K.top ⟨payload ++ x :: y :: rest, 0, some PMsg.expectedCRLF, false⟩
    (Exc.proto PMsg.expectedCRLF) rfl
    (hrun _ (by simp only [feed, initParser, List.nil_append, List.length_cons,
      List.length_append]; omega))

theorem run_bulk_value (payload rest : Bytes) :
    parse_one (feed (initParser none)
        (36 :: (decRepr payload.length ++ 13 :: 10 :: (payload ++ 13 :: 10 :: rest))))
      = (⟨rest, 0, none, false, none, none⟩, POut.val (RVal.bytes payload)) := by
  have hd : dispatch false 36 = some (Act.lineFind (LineDst.intFor (IntDst.bulk false))) := rfl
  have hhl : handleLine ⟨payload ++ 13 :: 10 :: rest, 0, none, false⟩ (decRepr payload.length)
      (.intFor (.bulk false)) K.top
      = .cont ⟨payload ++ 13 :: 10 :: rest, 0, none, false⟩
          (.exactRead (payload.length : Int) (.bulkBody false)) K.top := by
    simp only [handleLine, pyInt_decRepr, handleInt]
    rw [if_neg (by omega : ¬((payload.length : Int) = -1))]
  have hex : step ⟨payload ++ 13 :: 10 :: rest, 0, none, false⟩
      (.exactRead (payload.length : Int) (.bulkBody false)) K.top
      = .ret ⟨rest, 0, none, false⟩ (RVal.bytes payload) := by
    rw [step_exact rfl rfl]
    simp [handleExact, fromDeliv_top]
  have hrun : ∀ f, 4 ≤ f →
      runSteps f ⟨36 :: (decRepr payload.length ++ 13 :: 10 :: (payload ++ 13 :: 10 :: rest)),
        0, none, false⟩ Act.startParse K.top
      = RunRes.value ⟨rest, 0, none, false⟩ (RVal.bytes payload) := by
    intro f hfl
    rw [runSteps_head_line hd (crlfFree_decRepr _) (by omega), hhl, stepOutRun_cont,
      show f - 2 = (f - 3) + 1 from by omega, runSteps_succ, hex, stepOutRun_ret]
  exact @parse_one_val2
    (feed (initParser none)
      (36 :: (decRepr payload.length ++ 13 :: 10 :: (payload ++ 13 :: 10 :: rest))))
    Act.startParse K.top ⟨rest, 0, none, false⟩ (RVal.bytes payload) rfl
    (hrun _ (by simp only [feed, initParser, List.nil_append, List.length_cons,
      List.length_append]; omega))

theorem run_verbatim_no_colon (payload rest : Bytes) (hc : 58 ∉ payload) :
    parse_one (feed (initParser none)
        (61 :: (decRepr payload.length ++ 13 :: 10 :: (payload ++ 13 :: 10 :: rest))))
      = (⟨rest, 0, none, false, none, none⟩, POut.exn (Exc.native NErr.verbatimUnpack)) := by
  have hd : dispatch false 61
      = some (Act.lineFind (LineDst.intFor (IntDst.verbatim false))) := rfl
  have hhl : handleLine ⟨payload ++ 13 :: 10 :: rest, 0, none, false⟩ (decRepr payload.length)
      (.intFor (.verbatim false)) K.top
      = .cont ⟨payload ++ 13 :: 10 :: rest, 0, none, false⟩
          (.exactRead (payload.length : Int) (.verbatimBody false)) K.top := by
    simp only [handleLine, pyInt_decRepr, handleInt]
    rw [if_neg (by omega : ¬((payload.length : Int) = -1))]
  have hex : step ⟨payload ++ 13 :: 10 :: rest, 0, none, false⟩
      (.exactRead (payload.length : Int) (.verbatimBody false)) K.top
      = .raise ⟨rest, 0, none, false⟩ (.native NErr.verbatimUnpack) := by
    rw [step_exact rfl rfl]
    simp only [handleExact, splitColon_none hc]
  have hrun : ∀ f, 4 ≤ f →
      runSteps f ⟨61 :: (decRepr payload.length ++ 13 :: 10 :: (payload ++ 13 :: 10 :: rest)),
        0, none, false⟩ Act.startParse K.top
      = RunRes.thrown ⟨rest, 0, none, false⟩ (Exc.native NErr.verbatimUnpack) := by
    intro f hfl
    rw [runSteps_head_line hd (crlfFree_decRepr _) (by omega), hhl, stepOutRun_cont,
      show f - 2 = (f - 3) + 1 from by omega, runSteps_succ, hex, stepOutRun_raise]
  exact @parse_one_exn2
    (feed (initParser none)
      (61 :: (decRepr payload.length ++ 13 :: 10 :: (payload ++ 13 :: 10 :: rest))))
    Act.startParse K.top ⟨rest, 0, none, false⟩ (Exc.native NErr.verbatimUnpack) rfl
    (hrun _ (by simp only [feed, initParser, List.nil_append, List.length_cons,
      List.length_append]; omega))

theorem run_bulk_chunk1 (payload : Bytes) (k : Nat) (hk : k ≤ payload.length) :
    parse_one (feed (initParser none)
        (36 :: (decRepr payload.length ++ 13 :: 10 :: payload.take k)))
      = (⟨payload.take k, 0, none, false, none,
          some (.exactRead (payload.length : Int) (.bulkBody false), K.top)⟩, POut.nomore) := by
  have hd : dispatch false 36 = some (Act.lineFind (LineDst.intFor (IntDst.bulk false))) := rfl
  have hhl : handleLine ⟨payload.take k, 0, none, false⟩ (decRepr payload.length)
      (.intFor (.bulk false)) K.top
      = .cont ⟨payload.take k, 0, none, false⟩
          (.exactRead (payload.length : Int) (.bulkBody false)) K.top := by
    simp only [handleLine, pyInt_decRepr, handleInt]
    rw [if_neg (by omega : ¬((payload.length : Int) = -1))]
  have hw : step ⟨payload.take k, 0, none, false⟩
      (.exactRead (payload.length : Int) (.bulkBody false)) K.top
      = .yield ⟨payload.take k, 0, none, false⟩
          (.exactRead (payload.length : Int) (.bulkBody false)) K.top := by
    apply step_exact_wait
    dsimp only
    simp only [List.length_take]
    push_cast
    omega
  have hrun : ∀ f, 3 ≤ f →
      runSteps f ⟨36 :: (decRepr payload.length ++ 13 :: 10 :: payload.take k), 0, none, false⟩
        Act.startParse K.top
      = RunRes.suspend ⟨payload.take k, 0, none, false⟩
          (.exactRead (payload.length : Int) (.bulkBody false)) K.top := by
    intro f hfl
    rw [runSteps_head_line hd (crlfFree_decRepr _) (by omega), hhl, stepOutRun_cont,
      show f - 2 = (f - 3) + 1 from by omega, runSteps_succ, hw, stepOutRun_yield]
  exact @parse_one_nomore2
    (feed (initParser none) (36 :: (decRepr payload.length ++ 13 :: 10 :: payload.take k)))
    Act.startParse K.top ⟨payload.take k, 0, none, false⟩
    (.exactRead (payload.length : Int) (.bulkBody false)) K.top rfl
    (hrun _ (by simp only [feed, initParser, List.nil_append, List.length_cons,
      List.length_append]; omega))

theorem run_bulk_resumed (buf0 payload rest : Bytes) (d db : Bool) (enc : Option Bytes)
    (hbuf : buf0 = payload ++ 13 :: 10 :: rest) :
    parse_one ⟨buf0, 0, none, d, enc,
        some (.exactRead (payload.length : Int) (.bulkBody db), K.top)⟩
      = (⟨rest, 0, none, d, enc, none⟩,
         POut.val (if db then RVal.str payload else RVal.bytes payload)) := by
  subst hbuf
  have hex : step ⟨payload ++ 13 :: 10 :: rest, 0, none, d⟩
      (.exactRead (payload.length : Int) (.bulkBody db)) K.top
      = .ret ⟨rest, 0, none, d⟩ (if db then RVal.str payload else RVal.bytes payload) := by
    rw [step_exact rfl rfl]
    simp only [handleExact, fromDeliv_top]
  have hrun : runSteps ((payload ++ 13 :: 10 :: rest).length - 0 + 1)
      ⟨payload ++ 13 :: 10 :: rest, 0, none, d⟩
      (.exactRead (payload.length : Int) (.bulkBody db)) K.top
      = RunRes.value ⟨rest, 0, none, d⟩
          (if db then RVal.str payload else RVal.bytes payload) :=
    runSteps_ret _ (by omega) hex
  exact @parse_one_val2
    ⟨payload ++ 13 :: 10 :: rest, 0, none, d, enc,
      some (.exactRead (payload.length : Int) (.bulkBody db), K.top)⟩
    (.exactRead (payload.length : Int) (.bulkBody db)) K.top ⟨rest, 0, none, d⟩
    (if db then RVal.str payload else RVal.bytes payload) rfl hrun

theorem run_bulk_value_dec (payload rest : Bytes) :
    parse_one (feed (initParser (some [117, 116, 102, 56]))
        (36 :: (decRepr payload.length ++ 13 :: 10 :: (payload ++ 13 :: 10 :: rest))))
      = (⟨rest, 0, none, true, some [117, 116, 102, 56], none⟩,
         POut.val (RVal.str payload)) := by
  have hd : dispatch true 36 = some (Act.lineFind (LineDst.intFor (IntDst.bulk true))) := rfl
  have hhl : handleLine ⟨payload ++ 13 :: 10 :: rest, 0, none, true⟩ (decRepr payload.length)
      (.intFor (.bulk true)) K.top
      = .cont ⟨payload ++ 13 :: 10 :: rest, 0, none, true⟩
          (.exactRead (payload.length : Int) (.bulkBody true)) K.top := by
    simp only [handleLine, pyInt_decRepr, handleInt]
    rw [if_neg (by omega : ¬((payload.length : Int) = -1))]
  have hex : step ⟨payload ++ 13 :: 10 :: rest, 0, none, true⟩
      (.exactRead (payload.length : Int) (.bulkBody true)) K.top
      = .ret ⟨rest, 0, none, true⟩ (RVal.str payload) := by
    rw [step_exact rfl rfl]
    simp [handleExact, fromDeliv_top]
  have hrun : ∀ f, 4 ≤ f →
      runSteps f ⟨36 :: (decRepr payload.length ++ 13 :: 10 :: (payload ++ 13 :: 10 :: rest)),
        0, none, true⟩ Act.startParse K.top
      = RunRes.value ⟨rest, 0, none, true⟩ (RVal.str payload) := by
    intro f hfl
    rw [runSteps_head_line hd (crlfFree_decRepr _) (by omega), hhl, stepOutRun_cont,
      show f - 2 = (f - 3) + 1 from by omega, runSteps_succ, hex, stepOutRun_ret]
  exact @parse_one_val2
    (feed (initParser (some [117, 116, 102, 56]))
      (36 :: (decRepr payload.length ++ 13 :: 10 :: (payload ++ 13 :: 10 :: rest))))
    Act.startParse K.top ⟨rest, 0, none, true⟩ (RVal.str payload) rfl
    (hrun _ (by simp only [feed, initParser, List.nil_append, List.length_cons,
      List.length_append]; omega))

theorem run_single_decoded (line rest : Bytes) (enc : Option Bytes)
    (hf : crlfFree line = true) :
    parse_one ⟨43 :: (line ++ 13 :: 10 :: rest), 0, none, true, enc, none⟩
      = (⟨rest, 0, none, true, enc, none⟩, POut.val (RVal.str line)) := by
  have hd : dispatch true 43 = some (Act.lineFind (LineDst.single true)) := rfl
  have hhl : handleLine ⟨rest, 0, none, true⟩ line (.single true) K.top
      = .ret ⟨rest, 0, none, true⟩ (RVal.str line) := by
    simp [handleLine, fromDeliv_top]
  have hrun : runSteps ((43 :: (line ++ 13 :: 10 :: rest)).length + 1)
      ⟨43 :: (line ++ 13 :: 10 :: rest), 0, none, true⟩ Act.startParse K.top
      = RunRes.value ⟨rest, 0, none, true⟩ (RVal.str line) := by
    rw [runSteps_head_line hd hf (by simp only [List.length_cons]; omega), hhl, stepOutRun_ret]
  exact @parse_one_val2 ⟨43 :: (line ++ 13 :: 10 :: rest), 0, none, true, enc, none⟩
    Act.startParse K.top ⟨rest, 0, none, true⟩ (RVal.str line) rfl hrun

/-- Claim C1.  The parse is not chunk-independent: the complete simple
string `b"+A\r\n"` fed in one chunk yields the value `b"A"`, but fed as
`b"+A\r"` then `b"\n"` every `parse_one` call returns the not-enough-data
sentinel even though the whole well-formed reply is buffered, because
`waitany` fixes the threshold `len(buf) + 1` which `waitsome` adds to a
nonzero `pos`. -/
theorem chunked_feed_diverges_from_single_feed :
    (parse_one (feed (initParser none) [43, 65, 13, 10])).2 = POut.val (RVal.bytes [65])
    ∧ (parse_one (feed (initParser none) [43, 65, 13])).2 = POut.nomore
    ∧ (parse_one (feed (parse_one (feed (initParser none) [43, 65, 13])).1 [10])).2
        = POut.nomore
    ∧ (parse_one (feed (parse_one (feed (initParser none) [43, 65, 13])).1 [10])).1.buf
        = [43, 65, 13, 10]
    ∧ (parse_one
          (parse_one (feed (parse_one (feed (initParser none) [43, 65, 13])).1 [10])).1).2
        = POut.nomore :=
  ⟨rfl, rfl, rfl, rfl, rfl⟩

/-- Claim C2.  The set parser does not collect its children: for a set
reply with a positive length such as `b"~1\r\n:1\r\n"`, `_parse_set`
evaluates `yield from self.parse` on the uncalled bound method and raises
`TypeError` instead of returning the one-element set; only `b"~0\r\n"`
(empty set) and `b"~-1\r\n"` (null) complete, and the `TypeError` is not
stored as a sticky protocol error. -/
theorem set_reply_raises_type_error :
    (parse_one (feed (initParser none) [126, 49, 13, 10, 58, 49, 13, 10])).2
        = POut.exn (Exc.native NErr.setIter)
    ∧ (parse_one (feed (initParser none) [126, 49, 13, 10, 58, 49, 13, 10])).1.err = none
    ∧ (parse_one (feed (initParser none) [126, 48, 13, 10])).2 = POut.val (RVal.set [])
    ∧ (parse_one (feed (initParser none) [126, 45, 49, 13, 10])).2 = POut.val RVal.null :=
  ⟨rfl, rfl, rfl, rfl⟩

/-- Claim C3.  Sticky error latch: once a `parse_one` call raises a
protocol-error value, the value is stored in the sticky slot and never
cleared; after any further sequence of feeds, `parse_one` calls, and
encoding changes, `parse_one` raises the same protocol error and leaves
the state — in particular `buf` and `pos` — completely unchanged. -/
theorem sticky_error_latch (s s₁ : PState) (m : PMsg) (ops : List Op)
    (h : parse_one s = (s₁, POut.exn (Exc.proto m))) :
    parse_one (applyOps s₁ ops) = (applyOps s₁ ops, POut.exn (Exc.proto m)) := by
  obtain ⟨he, hg⟩ := parse_one_exn_err h
  obtain ⟨he2, hg2⟩ := poisoned_ops he hg ops
  exact parse_one_poisoned he2 hg2

/-- Witness for C3: the unknown tag `b"!"` poisons the parser; after a
further feed and a further `parse_one`, the same protocol error is raised
with the state unchanged. -/
theorem sticky_error_latch_witness :
    parse_one
        (applyOps (parse_one (feed (initParser none) [33, 120, 13, 10])).1
          [Op.feedOp [43, 79, 75, 13, 10], Op.parseOne])
      = (applyOps (parse_one (feed (initParser none) [33, 120, 13, 10])).1
          [Op.feedOp [43, 79, 75, 13, 10], Op.parseOne],
        POut.exn (Exc.proto (PMsg.unknownTag (some 33)))) :=
  sticky_error_latch (feed (initParser none) [33, 120, 13, 10])
    (parse_one (feed (initParser none) [33, 120, 13, 10])).1
    (PMsg.unknownTag (some 33)) [Op.feedOp [43, 79, 75, 13, 10], Op.parseOne] rfl

/-- Claim C4.  Wire violations raise values produced by the
`protocolError` factory and that same value is stored in the sticky slot
before raising: (1) every protocol-error value a `parse_one` call raises is
stored in `err`, and the outcome and stored value are pinned for (2) an
unknown first type-tag byte, (3) a malformed numeric token for `:` (the
same `readint` serves `(`), (4) a non-numeric length token for `$`, (5) a
declared-length payload not followed by CRLF, and (6) a malformed numeric
token for `,`. -/
theorem wire_violations_protocol_errors :
    (∀ s s₁ m, parse_one s = (s₁, POut.exn (Exc.proto m)) → s₁.err = some m)
    ∧ (∀ b rest, dispatch false b = none →
        parse_one (feed (initParser none) (b :: rest))
          = (⟨b :: rest, 1, some (PMsg.unknownTag (some b)), false, none, none⟩,
             POut.exn (Exc.proto (PMsg.unknownTag (some b)))))
    ∧ (∀ tok rest, crlfFree tok = true → pyInt tok = none →
        parse_one (feed (initParser none) (58 :: (tok ++ 13 :: 10 :: rest)))
          = (⟨rest, 0, some (PMsg.badInt tok), false, none, none⟩,
             POut.exn (Exc.proto (PMsg.badInt tok))))
    ∧ (∀ tok rest, crlfFree tok = true → pyInt tok = none →
        parse_one (feed (initParser none) (36 :: (tok ++ 13 :: 10 :: rest)))
          = (⟨rest, 0, some (PMsg.badInt tok), false, none, none⟩,
             POut.exn (Exc.proto (PMsg.badInt tok))))
    ∧ (∀ payload x y rest, ¬(x = 13 ∧ y = 10) →
        parse_one (feed (initParser none)
            (36 :: (decRepr payload.length ++ 13 :: 10 :: (payload ++ x :: y :: rest))))
          = (⟨payload ++ x :: y :: rest, 0, some PMsg.expectedCRLF, false, none, none⟩,
             POut.exn (Exc.proto PMsg.expectedCRLF)))
    ∧ (∀ tok rest, crlfFree tok = true → pyFloatValid tok = false →
        parse_one (feed (initParser none) (44 :: (tok ++ 13 :: 10 :: rest)))
          = (⟨rest, 0, some (PMsg.badFloat tok), false, none, none⟩,
             POut.exn (Exc.proto (PMsg.badFloat tok)))) := by
  refine ⟨fun s s₁ m h => (parse_one_exn_err h).1, ?_, ?_, ?_, ?_, ?_⟩
  · exact fun b rest hd => run_unknown_tag rest hd
  · exact fun tok rest hf hpi =>
      run_line_badInt
        (show dispatch false 58 = some (Act.lineFind (LineDst.intFor IntDst.intVal)) from rfl)
        tok rest hf hpi
  · exact fun tok rest hf hpi =>
      run_line_badInt
        (show dispatch false 36
            = some (Act.lineFind (LineDst.intFor (IntDst.bulk false))) from rfl)
        tok rest hf hpi
  · exact fun payload x y rest hxy => run_missing_crlf payload x y rest hxy
  · exact fun tok rest hf hpf => run_line_badFloat tok rest hf hpf

/-- Witness for C4: concrete instances of each wire violation — tag `b"!"`,
token `b"a"` for `:` and for a `$` length, payload `b"hi"` followed by
`b"XY"` instead of CRLF, and token `b"abc"` for `,`. -/
theorem wire_violations_protocol_errors_witness :
    parse_one (feed (initParser none) [33])
      = (⟨[33], 1, some (PMsg.unknownTag (some 33)), false, none, none⟩,
         POut.exn (Exc.proto (PMsg.unknownTag (some 33))))
    ∧ parse_one (feed (initParser none) (58 :: ([97] ++ 13 :: 10 :: [])))
      = (⟨[], 0, some (PMsg.badInt [97]), false, none, none⟩,
         POut.exn (Exc.proto (PMsg.badInt [97])))
    ∧ parse_one (feed (initParser none) (36 :: ([97] ++ 13 :: 10 :: [])))
      = (⟨[], 0, some (PMsg.badInt [97]), false, none, none⟩,
         POut.exn (Exc.proto (PMsg.badInt [97])))
    ∧ parse_one (feed (initParser none)
          (36 :: (decRepr ([104, 105] : Bytes).length ++ 13 :: 10 ::
            (([104, 105] : Bytes) ++ 88 :: 89 :: []))))
      = (⟨[104, 105, 88, 89], 0, some PMsg.expectedCRLF, false, none, none⟩,
         POut.exn (Exc.proto PMsg.expectedCRLF))
    ∧ parse_one (feed (initParser none) (44 :: ([97, 98, 99] ++ 13 :: 10 :: [])))
      = (⟨[], 0, some (PMsg.badFloat [97, 98, 99]), false, none, none⟩,
         POut.exn (Exc.proto (PMsg.badFloat [97, 98, 99]))) :=
  ⟨wire_violations_protocol_errors.2.1 33 [] rfl,
   wire_violations_protocol_errors.2.2.1 [97] [] rfl rfl,
   wire_violations_protocol_errors.2.2.2.1 [97] [] rfl rfl,
   wire_violations_protocol_errors.2.2.2.2.1 [104, 105] 88 89 [] (by decide),
   wire_violations_protocol_errors.2.2.2.2.2 [97, 98, 99] [] rfl rfl⟩

/-- Claim C5 counterexample: for the well-formed error reply `b"-\r\n"`,
whose message is empty, `parse_one` returns a reply-error value carrying
the placeholder text `b"Error"` — not the (empty) message text. -/
theorem empty_error_message_counterexample :
    (parse_one (feed (initParser none) [45, 13, 10])).2
        = POut.val (RVal.replyErr [69, 114, 114, 111, 114])
    ∧ [69, 114, 114, 111, 114] ≠ ([] : Bytes) :=
  ⟨rfl, by simp⟩

/-- Claim C5 (amended).  For every well-formed error reply `-<message>\r\n`,
`parse_one` returns (does not raise) a reply-error value carrying the
message text when the message is nonempty, and the placeholder text
`b"Error"` when the message is empty; the sticky error stays unset, no
generator is left suspended, and the next `parse_one` parses the following
frame normally (concretely: `b"-X\r\n+OK\r\n"` gives the reply error `X`
then the simple string `OK`). -/
theorem reply_error_returned_amended (msg rest : Bytes) (hf : crlfFree msg = true) :
    parse_one (feed (initParser none) (45 :: (msg ++ 13 :: 10 :: rest)))
      = (⟨rest, 0, none, false, none, none⟩,
         POut.val (RVal.replyErr (if msg = [] then errorMsgBytes else msg)))
    ∧ (parse_one (feed (initParser none) (45 :: (msg ++ 13 :: 10 :: rest)))).1
        = feed (initParser none) rest
    ∧ (parse_one (feed (initParser none) [45, 88, 13, 10, 43, 79, 75, 13, 10])).2
        = POut.val (RVal.replyErr [88])
    ∧ (parse_one (parse_one (feed (initParser none) [45, 88, 13, 10, 43, 79, 75, 13, 10])).1).2
        = POut.val (RVal.bytes [79, 75]) := by
  have h := run_error_line msg rest hf
  refine ⟨h, ?_, rfl, rfl⟩
  rw [h]
  rfl

/-- Witness for C5 (amended): the message `b"ERR"`. -/
theorem reply_error_returned_amended_witness :
    parse_one (feed (initParser none) (45 :: (([69, 82, 82] : Bytes) ++ 13 :: 10 :: [])))
      = (⟨[], 0, none, false, none, none⟩,
         POut.val (RVal.replyErr
           (if ([69, 82, 82] : Bytes) = [] then errorMsgBytes else [69, 82, 82]))) :=
  (reply_error_returned_amended [69, 82, 82] [] rfl).1

/-- Claim C9.  A verbatim frame whose declared payload contains no colon —
such as `b"=5\r\nabcde\r\n"` — makes `parse_one` raise the `ValueError`
from tuple unpacking, which is not a value produced by the
`protocolError` factory; the sticky error stays unset, and the resulting
state is exactly a fresh parser fed the remaining bytes, so the next
`parse_one` starts a fresh top-level parse instead of re-raising. -/
theorem verbatim_missing_colon_native (payload rest : Bytes) (hc : 58 ∉ payload) :
    parse_one (feed (initParser none)
        (61 :: (decRepr payload.length ++ 13 :: 10 :: (payload ++ 13 :: 10 :: rest))))
      = (⟨rest, 0, none, false, none, none⟩, POut.exn (Exc.native NErr.verbatimUnpack))
    ∧ (∀ m, Exc.native NErr.verbatimUnpack ≠ Exc.proto m)
    ∧ (parse_one (feed (initParser none)
        (61 :: (decRepr payload.length ++ 13 :: 10 :: (payload ++ 13 :: 10 :: rest))))).1
        = feed (initParser none) rest := by
  have h := run_verbatim_no_colon payload rest hc
  refine ⟨h, fun m => by simp, ?_⟩
  rw [h]
  rfl

/-- Witness for C9: the spec's own example `b"=5\r\nabcde\r\n"` followed by
`b"+OK\r\n"`, whose bytes remain for a fresh parse. -/
theorem verbatim_missing_colon_native_witness :
    parse_one (feed (initParser none)
        (61 :: (decRepr ([97, 98, 99, 100, 101] : Bytes).length ++ 13 :: 10 ::
          (([97, 98, 99, 100, 101] : Bytes) ++ 13 :: 10 :: [43, 79, 75, 13, 10]))))
      = (⟨[43, 79, 75, 13, 10], 0, none, false, none, none⟩,
         POut.exn (Exc.native NErr.verbatimUnpack)) :=
  (verbatim_missing_colon_native [97, 98, 99, 100, 101] [43, 79, 75, 13, 10] (by decide)).1

/-- Claim C10.  The integer parser shared by `:` and `(` follows Python
`int()`: every canonical decimal numeral of every natural number — however
large — parses exactly to that number with no 64-bit truncation, and the
laxer host forms are accepted as values rather than protocol errors: a
leading `+` (`b":+5\r\n"` gives 5), an underscore digit separator
(`b":1_0\r\n"` gives 10), and surrounding ASCII whitespace
(`b":\x205\t\r\n"` gives 5). -/
theorem int_parser_host_semantics (n : Nat) (rest : Bytes) :
    parse_one (feed (initParser none) (58 :: (decRepr n ++ 13 :: 10 :: rest)))
      = (⟨rest, 0, none, false, none, none⟩, POut.val (RVal.int (n : Int)))
    ∧ parse_one (feed (initParser none) (40 :: (decRepr n ++ 13 :: 10 :: rest)))
      = (⟨rest, 0, none, false, none, none⟩, POut.val (RVal.int (n : Int)))
    ∧ (parse_one (feed (initParser none) [58, 43, 53, 13, 10])).2 = POut.val (RVal.int 5)
    ∧ (parse_one (feed (initParser none) [58, 49, 95, 48, 13, 10])).2 = POut.val (RVal.int 10)
    ∧ (parse_one (feed (initParser none) [58, 32, 53, 9, 13, 10])).2 = POut.val (RVal.int 5) :=
  ⟨run_int_value
      (show dispatch false 58 = some (Act.lineFind (LineDst.intFor IntDst.intVal)) from rfl)
      n rest,
   run_int_value
      (show dispatch false 40 = some (Act.lineFind (LineDst.intFor IntDst.intVal)) from rfl)
      n rest,
   rfl, rfl, rfl⟩

/-- Claim C6 counterexample: with the aggregate `*2` suspended after its
first child `+a`, setting the encoding makes the second child `+b` parse
through the decoded dispatch table — the completed value mixes a raw first
child with a decoded second child, which differs from the value the
unchanged table produces. -/
theorem set_encoding_mid_aggregate_counterexample :
    (parse_one (feed (setEncoding (parse_one (feed (initParser none)
          [42, 50, 13, 10, 43, 97, 13, 10])).1 (some [117, 116, 102, 56]))
        [43, 98, 13, 10])).2
      = POut.val (RVal.arr [RVal.bytes [97], RVal.str [98]])
    ∧ (parse_one (feed (parse_one (feed (initParser none)
          [42, 50, 13, 10, 43, 97, 13, 10])).1 [43, 98, 13, 10])).2
      = POut.val (RVal.arr [RVal.bytes [97], RVal.bytes [98]])
    ∧ RVal.arr [RVal.bytes [97], RVal.str [98]]
        ≠ RVal.arr [RVal.bytes [97], RVal.bytes [98]] :=
  ⟨rfl, rfl, by simp⟩

/-- Claim C6 (amended).  The dispatch table is consulted once per frame, at
the moment its tag byte is read: changing the encoding while a scalar frame
is suspended mid-parse does not affect that frame (a bulk body suspended
mid-payload still completes through the raw variant fixed at its dispatch),
but every dispatch performed after the change — the next top-level frame
as well as the pending children of a suspended aggregate — uses the
decoded variants. -/
theorem set_encoding_dispatch_time_amended (payload : Bytes) (k : Nat) (e : Bytes)
    (line rest : Bytes) (hk : k ≤ payload.length) (hf : crlfFree line = true) :
    (parse_one (feed (setEncoding (parse_one (feed (initParser none)
          (36 :: (decRepr payload.length ++ 13 :: 10 :: payload.take k)))).1 (some e))
        (payload.drop k ++ crlf))).2
      = POut.val (RVal.bytes payload)
    ∧ parse_one (feed (setEncoding (initParser none) (some e))
          (43 :: (line ++ 13 :: 10 :: rest)))
      = (⟨rest, 0, none, true, some e, none⟩, POut.val (RVal.str line)) := by
  constructor
  · have h1 := run_bulk_chunk1 payload k hk
    rw [h1]
    have hbuf : payload.take k ++ (payload.drop k ++ crlf)
        = payload ++ 13 :: 10 :: ([] : Bytes) := by
      rw [← List.append_assoc, List.take_append_drop]
      simp [crlf]
    have h2 := run_bulk_resumed (payload.take k ++ (payload.drop k ++ crlf)) payload []
      true false (some e) hbuf
    rw [show feed (setEncoding (⟨payload.take k, 0, none, false, none,
          some (.exactRead (payload.length : Int) (.bulkBody false), K.top)⟩ : PState) (some e))
          (payload.drop k ++ crlf)
        = ⟨payload.take k ++ (payload.drop k ++ crlf), 0, none, true, some e,
            some (.exactRead (payload.length : Int) (.bulkBody false), K.top)⟩ from rfl]
    rw [h2]
    rfl
  · exact run_single_decoded line rest (some e) hf

/-- Witness for C6 (amended): the bulk payload `b"hello"` split after three
bytes with the encoding set in between still yields raw `b"hello"`. -/
theorem set_encoding_dispatch_time_amended_witness :
    (parse_one (feed (setEncoding (parse_one (feed (initParser none)
          (36 :: (decRepr ([104, 101, 108, 108, 111] : Bytes).length ++ 13 :: 10 ::
            (([104, 101, 108, 108, 111] : Bytes).take 3))))).1 (some [117, 116, 102, 56]))
        (([104, 101, 108, 108, 111] : Bytes).drop 3 ++ crlf))).2
      = POut.val (RVal.bytes [104, 101, 108, 108, 111]) :=
  (set_encoding_dispatch_time_amended [104, 101, 108, 108, 111] 3 [117, 116, 102, 56]
    [97] [] (by decide) rfl).1

/-- Claim C7.  Bulk strings: for every payload, the single-chunk reply
`$<len>\r\n<payload>\r\n` parses to exactly those payload bytes — tagged
as decoded text when an encoding is configured — leaving any following
bytes buffered; `$-1\r\n` parses to null; and the same reply split after
any prefix of the payload first returns the not-enough-data sentinel and
then exactly the one value, with no error. -/
theorem bulk_string_parse (payload rest : Bytes) (k : Nat) (hk : k ≤ payload.length) :
    parse_one (feed (initParser none)
        (36 :: (decRepr payload.length ++ 13 :: 10 :: (payload ++ 13 :: 10 :: rest))))
      = (⟨rest, 0, none, false, none, none⟩, POut.val (RVal.bytes payload))
    ∧ parse_one (feed (initParser (some [117, 116, 102, 56]))
        (36 :: (decRepr payload.length ++ 13 :: 10 :: (payload ++ 13 :: 10 :: rest))))
      = (⟨rest, 0, none, true, some [117, 116, 102, 56], none⟩, POut.val (RVal.str payload))
    ∧ (parse_one (feed (initParser none) [36, 45, 49, 13, 10])).2 = POut.val RVal.null
    ∧ ((parse_one (feed (initParser none)
          (36 :: (decRepr payload.length ++ 13 :: 10 :: payload.take k)))).2 = POut.nomore
      ∧ (parse_one
          (feed (parse_one (feed (initParser none)
              (36 :: (decRepr payload.length ++ 13 :: 10 :: payload.take k)))).1
            (payload.drop k ++ crlf))).2
          = POut.val (RVal.bytes payload)) := by
  refine ⟨run_bulk_value payload rest, run_bulk_value_dec payload rest, rfl, ?_, ?_⟩
  · rw [run_bulk_chunk1 payload k hk]
  · rw [run_bulk_chunk1 payload k hk]
    have hbuf : payload.take k ++ (payload.drop k ++ crlf)
        = payload ++ 13 :: 10 :: ([] : Bytes) := by
      rw [← List.append_assoc, List.take_append_drop]
      simp [crlf]
    have h2 := run_bulk_resumed (payload.take k ++ (payload.drop k ++ crlf)) payload []
      false false none hbuf
    rw [show feed (⟨payload.take k, 0, none, false, none,
          some (.exactRead (payload.length : Int) (.bulkBody false), K.top)⟩ : PState)
          (payload.drop k ++ crlf)
        = ⟨payload.take k ++ (payload.drop k ++ crlf), 0, none, false, none,
            some (.exactRead (payload.length : Int) (.bulkBody false), K.top)⟩ from rfl]
    rw [h2]
    rfl

theorem deliver_go_start {v : RVal} {k : K} {a : Act} {k2 : K}
    (h : deliver v k = .go a k2) : a = .startParse := by
  induction k generalizing v with
  | top => simp [deliver] at h
  | arrK r acc k ih =>
    simp only [deliver] at h
    split at h
    · exact ih h
    · cases h; rfl
  | mapKeyK r acc k ih =>
    simp only [deliver] at h
    cases h; rfl
  | mapValK r acc key k ih =>
    simp only [deliver] at h
    split at h
    · exact ih h
    · cases h; rfl

theorem fromDeliv_core (c : Core) (k : K) (v : RVal) : (fromDeliv c k v).core = c := by
  unfold fromDeliv
  cases hd : deliver v k <;> rfl

theorem fromDeliv_not_wait (c : Core) (k : K) (v : RVal) (t2 : Nat) :
    (fromDeliv c k v).act ≠ some (Act.waitCtl t2) := by
  unfold fromDeliv
  cases hd : deliver v k with
  | out v2 => simp [StepOut.act]
  | go a k2 =>
    have := deliver_go_start hd
    subst this
    simp [StepOut.act]

theorem actOk_not_wait {c : Core} {a : Act} (h : ∀ t, a ≠ Act.waitCtl t) : actOk c a := by
  cases a
  case waitCtl t => exact absurd rfl (h t)
  all_goals trivial

theorem actOk_pos {c1 c2 : Core} {a : Act} (h : c1.pos = c2.pos) (ha : actOk c1 a) :
    actOk c2 a := by
  cases a
  case waitCtl t =>
    show c2.pos < t
    rw [← h]
    exact ha
  all_goals trivial

theorem dispatch_not_wait {d : Bool} {b : Nat} {a : Act} (h : dispatch d b = some a) :
    ∀ t, a ≠ Act.waitCtl t := by
  intro t hcon
  subst hcon
  unfold dispatch at h
  rw [Option.map_eq_some'] at h
  obtain ⟨dst, _, h2⟩ := h
  exact Act.noConfusion h2

theorem handleInt_shape (c : Core) (n : Int) (t : IntDst) (k : K) :
    (handleInt c n t k).core.buf = c.buf ∧ (handleInt c n t k).core.pos = c.pos
    ∧ ∀ t2, (handleInt c n t k).act ≠ some (Act.waitCtl t2) := by
  have hfd : ∀ v, (fromDeliv c k v).core.buf = c.buf ∧ (fromDeliv c k v).core.pos = c.pos
      ∧ ∀ t2, (fromDeliv c k v).act ≠ some (Act.waitCtl t2) := fun v =>
    ⟨by rw [fromDeliv_core], by rw [fromDeliv_core], fromDeliv_not_wait c k v⟩
  cases t with
  | intVal => exact hfd _
  | bulk dec =>
    simp only [handleInt]
    split
    · exact hfd _
    · exact ⟨rfl, rfl, by intro t2 h2; simp [StepOut.act] at h2⟩
  | verbatim dec =>
    simp only [handleInt]
    split
    · exact hfd _
    · exact ⟨rfl, rfl, by intro t2 h2; simp [StepOut.act] at h2⟩
  | arrLen =>
    simp only [handleInt]
    split
    · exact hfd _
    · split
      · exact hfd _
      · exact ⟨rfl, rfl, by intro t2 h2; simp [StepOut.act] at h2⟩
  | mapLen =>
    simp only [handleInt]
    split
    · exact hfd _
    · split
      · exact hfd _
      · exact ⟨rfl, rfl, by intro t2 h2; simp [StepOut.act] at h2⟩
  | setLen =>
    simp only [handleInt]
    split
    · exact hfd _
    · split
      · exact hfd _
      · exact ⟨rfl, rfl, by intro t2 h2; simp [StepOut.act] at h2⟩

theorem handleLine_shape (c : Core) (v : Bytes) (dst : LineDst) (k : K) :
    (handleLine c v dst k).core.buf = c.buf ∧ (handleLine c v dst k).core.pos = c.pos
    ∧ ∀ t2, (handleLine c v dst k).act ≠ some (Act.waitCtl t2) := by
  have hfd : ∀ v2, (fromDeliv c k v2).core.buf = c.buf ∧ (fromDeliv c k v2).core.pos = c.pos
      ∧ ∀ t2, (fromDeliv c k v2).act ≠ some (Act.waitCtl t2) := fun v2 =>
    ⟨by rw [fromDeliv_core], by rw [fromDeliv_core], fromDeliv_not_wait c k v2⟩
  cases dst with
  | errLine => exact hfd _
  | single dec => exact hfd _
  | boolVal => exact hfd _
  | nullLine => exact hfd _
  | intFor t =>
    simp only [handleLine]
    split
    · exact handleInt_shape c _ t k
    · exact ⟨rfl, rfl, by intro t2 h2; simp [StepOut.act] at h2⟩
  | floatVal =>
    simp only [handleLine]
    split
    · exact hfd _
    · exact ⟨rfl, rfl, by intro t2 h2; simp [StepOut.act] at h2⟩

theorem handleExact_shape (c : Core) (v : Bytes) (dst : ExactDst) (k : K) :
    (handleExact c v dst k).core.buf = c.buf ∧ (handleExact c v dst k).core.pos = c.pos
    ∧ ∀ t2, (handleExact c v dst k).act ≠ some (Act.waitCtl t2) := by
  have hfd : ∀ v2, (fromDeliv c k v2).core.buf = c.buf ∧ (fromDeliv c k v2).core.pos = c.pos
      ∧ ∀ t2, (fromDeliv c k v2).act ≠ some (Act.waitCtl t2) := fun v2 =>
    ⟨by rw [fromDeliv_core], by rw [fromDeliv_core], fromDeliv_not_wait c k v2⟩
  cases dst with
  | bulkBody dec => exact hfd _
  | verbatimBody dec =>
    simp only [handleExact]
    split
    · exact hfd _
    · exact ⟨rfl, rfl, by intro t2 h2; simp [StepOut.act] at h2⟩

theorem readCtl_inv {c : Core} (k : K) (hp : c.pos < c.buf.length) :
    Core.inv (readCtl c k).core
    ∧ (∀ a2, (readCtl c k).act = some a2 → actOk (readCtl c k).core a2)
    ∧ (readCtl c k).core.buf = c.buf := by
  have hq : c.buf.get? c.pos = some (c.buf.get ⟨c.pos, hp⟩) := List.get?_eq_get hp
  have hstep : readCtl c k
      = match dispatch c.dec (c.buf.get ⟨c.pos, hp⟩) with
        | some a => .cont { c with pos := c.pos + 1 } a k
        | none =>
          .raise
            { buf := c.buf, pos := c.pos + 1,
              err := some (PMsg.unknownTag (some (c.buf.get ⟨c.pos, hp⟩))), dec := c.dec }
            (.proto (PMsg.unknownTag (some (c.buf.get ⟨c.pos, hp⟩)))) := by
    unfold readCtl
    rw [hq]
  rw [hstep]
  cases hd : dispatch c.dec (c.buf.get ⟨c.pos, hp⟩) with
  | some a2 =>
    refine ⟨?_, ?_, rfl⟩
    · show c.pos + 1 ≤ c.buf.length
      omega
    · intro a3 h3
      simp only [StepOut.act] at h3
      injection h3 with h4
      subst h4
      exact actOk_not_wait (dispatch_not_wait hd)
  | none =>
    refine ⟨?_, ?_, rfl⟩
    · show c.pos + 1 ≤ c.buf.length
      omega
    · intro a3 h3
      simp [StepOut.act] at h3

theorem step_inv {c : Core} {a : Act} (k : K) (hc : Core.inv c) (ha : actOk c a) :
    Core.inv (step c a k).core
    ∧ (∀ a2, (step c a k).act = some a2 → actOk (step c a k).core a2)
    ∧ ((step c a k).core.buf.length < c.buf.length → (step c a k).core.pos = 0) := by
  cases a with
  | startParse =>
    cases herr : c.err with
    | some m =>
      have hstep : step c .startParse k = .raise c (.proto m) := by simp [step, herr]
      rw [hstep]
      refine ⟨hc, ?_, ?_⟩
      · intro a2 h2; simp [StepOut.act] at h2
      · intro h2; exact absurd h2 (lt_irrefl _)
    | none =>
      by_cases hlen : c.buf.length < c.pos + 1
      · have hstep : step c .startParse k
            = .yield c (.waitCtl (c.pos + c.buf.length + 1)) k := by
          simp [step, herr, hlen]
        rw [hstep]
        refine ⟨hc, ?_, ?_⟩
        · intro a2 h2
          simp only [StepOut.act] at h2
          injection h2 with h3
          subst h3
          show c.pos < c.pos + c.buf.length + 1
          omega
        · intro h2; exact absurd h2 (lt_irrefl _)
      · have hstep : step c .startParse k = readCtl c k := by simp [step, herr, hlen]
        rw [hstep]
        obtain ⟨h1, h2, h3⟩ := @readCtl_inv c k (by omega)
        refine ⟨h1, h2, ?_⟩
        intro hlt
        rw [h3] at hlt
        exact absurd hlt (lt_irrefl _)
  | waitCtl t =>
    by_cases hlen : c.buf.length < t
    · have hstep : step c (.waitCtl t) k = .yield c (.waitCtl t) k := by simp [step, hlen]
      rw [hstep]
      refine ⟨hc, ?_, ?_⟩
      · intro a2 h2
        simp only [StepOut.act] at h2
        injection h2 with h3
        subst h3
        exact ha
      · intro h2; exact absurd h2 (lt_irrefl _)
    · have hstep : step c (.waitCtl t) k = readCtl c k := by simp [step, hlen]
      rw [hstep]
      have hp : c.pos < c.buf.length := by
        have h4 : c.pos < t := ha
        omega
      obtain ⟨h1, h2, h3⟩ := @readCtl_inv c k hp
      refine ⟨h1, h2, ?_⟩
      intro hlt
      rw [h3] at hlt
      exact absurd hlt (lt_irrefl _)
  | lineFind dst =>
    cases hfind : findFrom c.buf c.pos with
    | some o =>
      have hstep : step c (.lineFind dst) k
          = handleLine { c with pos := 0, buf := c.buf.drop (o + 2) }
              ((c.buf.drop c.pos).take (o - c.pos)) dst k := by
        simp [step, hfind]
      rw [hstep]
      obtain ⟨hb, hp2, hnw⟩ := handleLine_shape
        { c with pos := 0, buf := c.buf.drop (o + 2) }
        ((c.buf.drop c.pos).take (o - c.pos)) dst k
      refine ⟨?_, ?_, ?_⟩
      · show _ ≤ _
        rw [hp2]
        exact Nat.zero_le _
      · intro a2 h2
        exact actOk_not_wait (fun t2 hcon => hnw t2 (by rw [← hcon]; exact h2))
      · intro h2
        rw [hp2]
    | none =>
      have hstep : step c (.lineFind dst) k
          = .yield c (.lineWait (c.pos + c.buf.length + 1) dst) k := by
        simp [step, hfind]
      rw [hstep]
      refine ⟨hc, ?_, ?_⟩
      · intro a2 h2
        simp only [StepOut.act] at h2
        injection h2 with h3
        subst h3
        trivial
      · intro h2; exact absurd h2 (lt_irrefl _)
  | lineWait t dst =>
    by_cases hlen : c.buf.length < t
    · have hstep : step c (.lineWait t dst) k = .yield c (.lineWait t dst) k := by
        simp [step, hlen]
      rw [hstep]
      refine ⟨hc, ?_, ?_⟩
      · intro a2 h2
        simp only [StepOut.act] at h2
        injection h2 with h3
        subst h3
        trivial
      · intro h2; exact absurd h2 (lt_irrefl _)
    · cases hfind : findFrom c.buf c.pos with
      | some o =>
        have hstep : step c (.lineWait t dst) k
            = handleLine { c with pos := 0, buf := c.buf.drop (o + 2) }
                ((c.buf.drop c.pos).take (o - c.pos)) dst k := by
          simp [step, hlen, hfind]
        rw [hstep]
        obtain ⟨hb, hp2, hnw⟩ := handleLine_shape
          { c with pos := 0, buf := c.buf.drop (o + 2) }
          ((c.buf.drop c.pos).take (o - c.pos)) dst k
        refine ⟨?_, ?_, ?_⟩
        · show _ ≤ _
          rw [hp2]
          exact Nat.zero_le _
        · intro a2 h2
          exact actOk_not_wait (fun t2 hcon => hnw t2 (by rw [← hcon]; exact h2))
        · intro h2
          rw [hp2]
      | none =>
        have hstep : step c (.lineWait t dst) k
            = .yield c (.lineWait (c.pos + c.buf.length + 1) dst) k := by
          simp [step, hlen, hfind]
        rw [hstep]
        refine ⟨hc, ?_, ?_⟩
        · intro a2 h2
          simp only [StepOut.act] at h2
          injection h2 with h3
          subst h3
          trivial
        · intro h2; exact absurd h2 (lt_irrefl _)
  | exactRead size dst =>
    by_cases hlen : (c.buf.length : Int) < size + 2 + c.pos
    · have hstep : step c (.exactRead size dst) k = .yield c (.exactRead size dst) k := by
        simp [step, hlen]
      rw [hstep]
      refine ⟨hc, ?_, ?_⟩
      · intro a2 h2
        simp only [StepOut.act] at h2
        injection h2 with h3
        subst h3
        trivial
      · intro h2; exact absurd h2 (lt_irrefl _)
    · by_cases hcrlf : pySlice c.buf ((c.pos : Int) + size) ((c.pos : Int) + size + 2) = crlf
      · have hstep : step c (.exactRead size dst) k
            = handleExact { c with pos := 0, buf := pyDelFront c.buf ((c.pos : Int) + size + 2) }
                (pySlice c.buf c.pos ((c.pos : Int) + size)) dst k := by
          simp [step, hlen, hcrlf]
        rw [hstep]
        obtain ⟨hb, hp2, hnw⟩ := handleExact_shape
          { c with pos := 0, buf := pyDelFront c.buf ((c.pos : Int) + size + 2) }
          (pySlice c.buf c.pos ((c.pos : Int) + size)) dst k
        refine ⟨?_, ?_, ?_⟩
        · show _ ≤ _
          rw [hp2]
          exact Nat.zero_le _
        · intro a2 h2
          exact actOk_not_wait (fun t2 hcon => hnw t2 (by rw [← hcon]; exact h2))
        · intro h2
          rw [hp2]
      · have hstep : step c (.exactRead size dst) k
            = .raise { c with err := some PMsg.expectedCRLF } (.proto PMsg.expectedCRLF) := by
          simp [step, hlen, hcrlf]
        rw [hstep]
        refine ⟨hc, ?_, ?_⟩
        · intro a2 h2; simp [StepOut.act] at h2
        · intro h2; exact absurd h2 (lt_irrefl _)

theorem runSteps_inv {f : Nat} {c : Core} {a : Act} {k : K}
    (hc : Core.inv c) (ha : actOk c a) : runOk (runSteps f c a k) := by
  induction f generalizing c a k with
  | zero => exact ⟨hc, ha⟩
  | succ g ih =>
    obtain ⟨h1, h2, _⟩ := step_inv k hc ha
    rw [runSteps_succ]
    cases hs : step c a k with
    | cont c2 a2 k2 =>
      rw [hs] at h1 h2
      rw [stepOutRun_cont]
      exact ih h1 (h2 a2 rfl)
    | yield c2 a2 k2 =>
      rw [hs] at h1 h2
      rw [stepOutRun_yield]
      exact ⟨h1, h2 a2 rfl⟩
    | ret c2 v =>
      rw [hs] at h1
      rw [stepOutRun_ret]
      exact h1
    | raise c2 e =>
      rw [hs] at h1
      rw [stepOutRun_raise]
      exact h1

theorem SInv_parse_one {s : PState} (h : SInv s) : SInv (parse_one s).1 := by
  have hact : actOk s.core (s.gen.getD (Act.startParse, K.top)).1 := by
    cases hg : s.gen with
    | none => trivial
    | some ak => exact h.2 ak.1 ak.2 (by rw [hg])
  have hrun := @runSteps_inv (s.buf.length - s.pos + 1) s.core
    (s.gen.getD (Act.startParse, K.top)).1 (s.gen.getD (Act.startParse, K.top)).2 h.1 hact
  unfold parse_one
  dsimp only
  split
  · rename_i c a2 k2 heq
    rw [heq] at hrun
    refine ⟨hrun.1, ?_⟩
    intro a3 k3 hg3
    simp only at hg3
    injection hg3 with h4
    injection h4 with h5 h6
    subst h5
    exact actOk_pos rfl hrun.2
  · rename_i c v heq
    rw [heq] at hrun
    exact ⟨hrun, fun a3 k3 hg3 => by simp at hg3⟩
  · rename_i c e heq
    rw [heq] at hrun
    exact ⟨hrun, fun a3 k3 hg3 => by simp at hg3⟩

theorem SInv_applyOp {s : PState} (h : SInv s) (op : Op) : SInv (applyOp s op) := by
  cases op with
  | feedOp d =>
    refine ⟨?_, ?_⟩
    · show s.pos ≤ (s.buf ++ d).length
      have := h.1
      rw [List.length_append]
      omega
    · intro a3 k3 hg3
      exact actOk_pos rfl (h.2 a3 k3 hg3)
  | parseOne => exact SInv_parse_one h
  | setEnc e => exact ⟨h.1, fun a3 k3 hg3 => actOk_pos rfl (h.2 a3 k3 hg3)⟩

theorem SInv_applyOps {s : PState} (h : SInv s) (ops : List Op) : SInv (applyOps s ops) := by
  induction ops generalizing s with
  | nil => exact h
  | cons op rest ih =>
    rw [applyOps, List.foldl_cons]
    exact ih (SInv_applyOp h op)

theorem SInv_init (enc : Option Bytes) : SInv (initParser enc) :=
  ⟨Nat.le_refl 0, fun a3 k3 hg3 => by simp [initParser] at hg3⟩

/-- Claim C8.  Cursor invariant: after every sequence of buffer appends and
parser operations starting from a fresh parser, `0 ≤ pos ≤ len(buf)`
holds; moreover every single machine step of the generator chain preserves
`pos ≤ len(buf)` (together with the soundness of any stored wait
threshold), and whenever a step truncates the buffer from the front —
after a line or exact-length read is consumed — the resulting `pos` is 0. -/
theorem cursor_invariant (enc : Option Bytes) (ops : List Op) (c : Core) (a : Act) (k : K)
    (hc : Core.inv c) (ha : actOk c a) :
    (applyOps (initParser enc) ops).pos ≤ (applyOps (initParser enc) ops).buf.length
    ∧ Core.inv (step c a k).core
    ∧ (∀ a2, (step c a k).act = some a2 → actOk (step c a k).core a2)
    ∧ ((step c a k).core.buf.length < c.buf.length → (step c a k).core.pos = 0) := by
  obtain ⟨h1, h2, h3⟩ := step_inv k hc ha
  exact ⟨(SInv_applyOps (SInv_init enc) ops).1, h1, h2, h3⟩

/-- Witness for C8: the invariant instantiated on a feed followed by a
parse, and one concrete machine step. -/
theorem cursor_invariant_witness :
    (applyOps (initParser none) [Op.feedOp [43, 79, 75, 13, 10], Op.parseOne]).pos
        ≤ (applyOps (initParser none) [Op.feedOp [43, 79, 75, 13, 10], Op.parseOne]).buf.length
    ∧ Core.inv (step ⟨[43, 79, 75, 13, 10], 0, none, false⟩ Act.startParse K.top).core
    ∧ (∀ a2, (step ⟨[43, 79, 75, 13, 10], 0, none, false⟩ Act.startParse K.top).act = some a2
        → actOk (step ⟨[43, 79, 75, 13, 10], 0, none, false⟩ Act.startParse K.top).core a2)
    ∧ ((step ⟨[43, 79, 75, 13, 10], 0, none, false⟩ Act.startParse K.top).core.buf.length
          < ([43, 79, 75, 13, 10] : Bytes).length
        → (step ⟨[43, 79, 75, 13, 10], 0, none, false⟩ Act.startParse K.top).core.pos = 0) :=
  cursor_invariant none [Op.feedOp [43, 79, 75, 13, 10], Op.parseOne]
    ⟨[43, 79, 75, 13, 10], 0, none, false⟩ Act.startParse K.top (Nat.zero_le _) trivial

/-- Witness for C7: the spec's example — `b"hello"` fed as `b"$5\r\nhel"`
then `b"lo\r\n"`. -/
theorem bulk_string_parse_witness :
    (parse_one (feed (initParser none)
        (36 :: (decRepr ([104, 101, 108, 108, 111] : Bytes).length ++ 13 :: 10 ::
          (([104, 101, 108, 108, 111] : Bytes).take 3))))).2 = POut.nomore
    ∧ (parse_one
        (feed (parse_one (feed (initParser none)
            (36 :: (decRepr ([104, 101, 108, 108, 111] : Bytes).length ++ 13 :: 10 ::
              (([104, 101, 108, 108, 111] : Bytes).take 3))))).1
          (([104, 101, 108, 108, 111] : Bytes).drop 3 ++ crlf))).2
        = POut.val (RVal.bytes [104, 101, 108, 108, 111]) :=
  (bulk_string_parse [104, 101, 108, 108, 111] [] 3 (by decide)).2.2.2

end Resp
